import Mathlib

/-
  Shallow embedding of the RMA memory allocator
  (RobkooCZ/memoryAllocator: src/src/memHeader.c, src/include/memHeader.h).

  Modelling conventions:
  * size_t values are Nat; wrapping size_t arithmetic is made explicit with
    add64/sub64 (mod 2^64).  uint32_t values are Nat kept below 2^32, with
    an explicit % MOD32 where the C code can wrap (nextHandle++).
  * Pointers: a pool is a Header value; functions taking a possibly-NULL
    struct rma_mem_header_t* take an Option Header.  rma_getPtr returns the
    byte offset of the block from the pool base (Option Nat, none = NULL).
  * The bitmap region is a list of 32-bit words, exactly as the C code
    manipulates it (index / 32, bit index % 32, masks 1 << k and ~(1 << k)).
    Reads outside the region default to 0 (List.getD); in-range accesses are
    the only ones the C code performs on pools it built itself.
  * The handle table region is a list of uint32 slots.  rma_memHeaderInit
    never initialises it (the C code memsets only the bitmap), so the
    initial table contents are a parameter (junkTable) standing for the
    uninitialised bytes malloc returned.
  * malloc can fail nondeterministically; rma_memHeaderInit takes a
    mallocOk flag standing for that outcome (false models malloc == NULL).
  * rand() is modelled by a stream r : Nat -> Nat of future return values;
    the C code masks each value with 0xFFFF.
  * rma_findBlockByHandle returns SIZE_MAX for "not found"; that sentinel
    is modelled as none.  printf calls are side-effect free for the pool
    state and are dropped.
-/

def MOD64 : Nat := 18446744073709551616

def MOD32 : Nat := 4294967296

/-- Wrapping size_t subtraction: a - b at type size_t (mod 2^64). -/
def sub64 (a b : Nat) : Nat := (a % MOD64 + MOD64 - b % MOD64) % MOD64

/-- Wrapping size_t addition: a + b at type size_t (mod 2^64). -/
def add64 (a b : Nat) : Nat := (a + b) % MOD64

/-- struct rma_mem_header_t (src/include/memHeader.h, lines 44-57) together
with the bitmap and handle-table regions of the pool it heads. -/
structure Header where
  totalSize : Nat
  usedSize : Nat
  blockSize : Nat
  numBlocks : Nat
  numAllocated : Nat
  nextHandle : Nat
  bitmapOffset : Nat
  handleTableOffset : Nat
  dataOffset : Nat
  bitmap : List Nat
  handleTable : List Nat
deriving DecidableEq

/-- sizeof(struct rma_mem_header_t) on the 64-bit ABI the code targets:
five size_t fields, one uint32_t plus padding, three size_t fields = 72. -/
def rma_headerSize : Nat := 72

/-- rma_isBlockAllocated (memHeader.c lines 58-64):
bitmap[blockIndex / 32] & (1 << (blockIndex % 32)) != 0. -/
def rma_isBlockAllocated (bitmap : List Nat) (blockIndex : Nat) : Bool :=
  (bitmap.getD (blockIndex / 32) 0) &&& (1 <<< (blockIndex % 32)) != 0

/-- rma_markBlockAllocated (memHeader.c lines 74-81):
bitmap[blockIndex / 32] |= 1 << (blockIndex % 32). -/
def rma_markBlockAllocated (bitmap : List Nat) (blockIndex : Nat) : List Nat :=
  bitmap.set (blockIndex / 32)
    ((bitmap.getD (blockIndex / 32) 0) ||| (1 <<< (blockIndex % 32)))

/-- rma_markBlockFree (memHeader.c lines 91-98):
bitmap[blockIndex / 32] &= ~(1 << (blockIndex % 32)); the complement of a
uint32 mask is its xor with 0xFFFFFFFF. -/
def rma_markBlockFree (bitmap : List Nat) (blockIndex : Nat) : List Nat :=
  bitmap.set (blockIndex / 32)
    ((bitmap.getD (blockIndex / 32) 0) &&& (4294967295 ^^^ (1 <<< (blockIndex % 32))))

/-- Collision scan inside the do-while body of rma_generateSalt
(memHeader.c lines 127-136): some currently allocated block's handle-table
entry equals the candidate salt. -/
def rma_saltCollision (header : Header) (salt : Nat) : Bool :=
  (List.range header.numBlocks).any (fun blockIndex =>
    rma_isBlockAllocated header.bitmap blockIndex &&
      (header.handleTable.getD blockIndex 0 == salt))

/-- The do-while retry loop of rma_generateSalt, by remaining attempts.
Each attempt draws rand() & 0xFFFF; a non-colliding candidate is returned
at once, and exhausting the attempts returns 0. -/
def rma_generateSaltAux (header : Header) : (Nat → Nat) → Nat → Nat
  | _, 0 => 0
  | r, n + 1 =>
    let salt := r 0 &&& 65535
    if rma_saltCollision header salt then
      rma_generateSaltAux header (fun k => r (k + 1)) n
    else salt

/-- rma_generateSalt (memHeader.c lines 111-148): maxRetryCount = 10, so the
loop body runs for currentRetries = 0..9 -- ten candidates in total. -/
def rma_generateSalt (header : Header) (r : Nat → Nat) : Nat :=
  rma_generateSaltAux header r 10

/-- rma_findBlockByHandle (memHeader.c lines 160-180): extract the upper 16
bits of the handle as the salt ((uint16_t)(handle >> 16)) and return the
first allocated block whose handle-table entry equals it; none models the
SIZE_MAX "not found" sentinel. -/
def rma_findBlockByHandle (header : Header) (handle : Nat) : Option Nat :=
  let handleSalt := (handle >>> 16) &&& 65535
  (List.range header.numBlocks).find? (fun blockIndex =>
    rma_isBlockAllocated header.bitmap blockIndex &&
      (header.handleTable.getD blockIndex 0 == handleSalt))

/-- rma_isValidHandle (memHeader.c lines 201-216). -/
def rma_isValidHandle (header : Option Header) (handle : Nat) : Int :=
  match header with
  | none => 0
  | some h =>
    if handle == 0 then 0
    else
      match rma_findBlockByHandle h handle with
      | none => -1
      | some blockIndex =>
        if rma_isBlockAllocated h.bitmap blockIndex = false then -2 else 1

/-- rma_getBlockPtr (memHeader.c lines 228-230): byte offset of the block
from the pool base, (char*)header + dataOffset + blockIndex * blockSize. -/
def rma_getBlockPtr (header : Header) (blockIndex : Nat) : Nat :=
  (header.dataOffset + blockIndex * header.blockSize) % MOD64

/-- rma_memHeaderInit (memHeader.c lines 236-272).  mallocOk stands for the
malloc outcome; junkTable for the uninitialised handle-table bytes.  The
memset of (numBlocks + 7) / 8 bytes is modelled as the covering
(numBlocks + 31) / 32 zero words; the trailing bits of a partially cleared
word are uninitialised in C but are never read, since every scan stops at
numBlocks.  Note the C code performs no validation of its arguments. -/
def rma_memHeaderInit (totalSize blockSize : Nat) (mallocOk : Bool)
    (junkTable : List Nat) : Option Header :=
  if mallocOk = false then none
  else
    let headerSize := rma_headerSize
    let maxPossibleBlocks := sub64 totalSize headerSize / blockSize
    let bitmapSize := add64 maxPossibleBlocks 31 / 32 * 4 % MOD64
    let handleTableSize := maxPossibleBlocks * 4 % MOD64
    let bitmapOffset := headerSize
    let handleTableOffset := add64 headerSize bitmapSize
    let dataOffset := add64 (add64 headerSize bitmapSize) handleTableSize
    let remainingSpace := sub64 totalSize dataOffset
    let numBlocks := remainingSpace / blockSize
    some {
      totalSize := totalSize
      usedSize := headerSize
      blockSize := blockSize
      numBlocks := numBlocks
      numAllocated := 0
      nextHandle := 1
      bitmapOffset := bitmapOffset
      handleTableOffset := handleTableOffset
      dataOffset := dataOffset
      bitmap := List.replicate ((numBlocks + 31) / 32) 0
      handleTable := junkTable }

/-- rma_alloc body once header != NULL (memHeader.c lines 274-335);
freeBlockIndex starts at 0 and is set to the first free block found. -/
def rma_allocCore (header : Header) (r : Nat → Nat) : Nat × Header :=
  if header.numAllocated ≥ header.numBlocks then (0, header)
  else if header.nextHandle == 0 then (0, header)
  else
    let freeBlockIndex :=
      (((List.range header.numBlocks).find? (fun blockIndex =>
        !rma_isBlockAllocated header.bitmap blockIndex)).getD 0)
    let salt := rma_generateSalt header r
    if salt == 0 then (0, header)
    else
      let handle := (salt <<< 16) ||| header.nextHandle
      (handle, { header with
        handleTable := header.handleTable.set freeBlockIndex salt
        numAllocated := add64 header.numAllocated 1
        nextHandle := (header.nextHandle + 1) % MOD32
        usedSize := add64 header.usedSize header.blockSize
        bitmap := rma_markBlockAllocated header.bitmap freeBlockIndex })

/-- rma_alloc (memHeader.c lines 274-335): returns RMA_INVALID_HANDLE = 0 on
a NULL header and otherwise runs the body on the pool. -/
def rma_alloc (header : Option Header) (r : Nat → Nat) : Nat × Option Header :=
  match header with
  | none => (0, none)
  | some h =>
    let res := rma_allocCore h r
    (res.1, some res.2)

/-- rma_free body on a non-NULL header (memHeader.c lines 337-358).  The
inner none branch is unreachable (validity 1 implies the block was found)
and returns the pool unchanged only to make the function total. -/
def rma_freeCore (header : Header) (handle : Nat) : Int × Header :=
  let validity := rma_isValidHandle (some header) handle
  if validity ≤ 0 then (validity, header)
  else
    match rma_findBlockByHandle header handle with
    | none => (validity, header)
    | some blockIndex =>
      (1, { header with
        bitmap := rma_markBlockFree header.bitmap blockIndex
        handleTable := header.handleTable.set blockIndex 0
        numAllocated := sub64 header.numAllocated 1
        usedSize := sub64 header.usedSize header.blockSize })

/-- rma_free (memHeader.c lines 337-358): on a NULL header,
rma_isValidHandle returns 0, which is passed through. -/
def rma_free (header : Option Header) (handle : Nat) : Int × Option Header :=
  match header with
  | none => (rma_isValidHandle none handle, none)
  | some h =>
    let res := rma_freeCore h handle
    (res.1, some res.2)

/-- rma_getPtr (memHeader.c lines 360-373). -/
def rma_getPtr (header : Option Header) (handle : Nat) : Option Nat :=
  match header with
  | none => none
  | some h =>
    if rma_isValidHandle (some h) handle ≤ 0 then none
    else
      match rma_findBlockByHandle h handle with
      | none => none
      | some blockIndex => some (rma_getBlockPtr h blockIndex)

/-- Iterated rma_alloc on a pool, one rand stream per call (the C rand
stream is split into the segments each call consumes). -/
def rma_allocN (header : Header) : List (Nat → Nat) → List Nat × Header
  | [] => ([], header)
  | r :: rs =>
    let step := rma_allocCore header r
    let rest := rma_allocN step.2 rs
    (step.1 :: rest.1, rest.2)

/-- Number of block indices below numBlocks whose bitmap bit is set. -/
def rma_allocCount (header : Header) : Nat :=
  ((List.range header.numBlocks).filter (fun blockIndex =>
    rma_isBlockAllocated header.bitmap blockIndex)).length

/-- Handle-table entries of allocated blocks are pairwise distinct. -/
def SaltInjective (header : Header) : Prop :=
  ∀ i, i < header.numBlocks → ∀ j, j < header.numBlocks →
    rma_isBlockAllocated header.bitmap i = true →
    rma_isBlockAllocated header.bitmap j = true →
    header.handleTable.getD i 0 = header.handleTable.getD j 0 → i = j

/-- Consistency invariant of a pool state, established by rma_memHeaderInit
and preserved by rma_alloc and rma_free (spec section 3, data model). -/
def PoolInv (header : Header) : Prop :=
  header.numAllocated = rma_allocCount header ∧
  SaltInjective header ∧
  header.usedSize = rma_headerSize + header.numAllocated * header.blockSize ∧
  1 ≤ header.blockSize ∧
  rma_headerSize ≤ header.dataOffset ∧
  header.dataOffset + header.numBlocks * header.blockSize ≤ header.totalSize ∧
  header.totalSize < MOD64 ∧
  header.nextHandle < MOD32 ∧
  header.numBlocks ≤ header.handleTable.length ∧
  (header.numBlocks + 31) / 32 ≤ header.bitmap.length

instance (header : Header) : Decidable (SaltInjective header) := by
  unfold SaltInjective
  infer_instance

instance (header : Header) : Decidable (PoolInv header) := by
  unfold PoolInv
  infer_instance

/-- maxPossibleBlocks of rma_memHeaderInit (memHeader.c line 246) in the
regime where the size_t subtraction does not underflow. -/
def rma_maxBlocksOf (totalSize blockSize : Nat) : Nat :=
  (totalSize - rma_headerSize) / blockSize

/-- bitmapSize of rma_memHeaderInit (memHeader.c line 249), same regime. -/
def rma_bitmapSizeOf (totalSize blockSize : Nat) : Nat :=
  (rma_maxBlocksOf totalSize blockSize + 31) / 32 * 4

/-- dataOffset of rma_memHeaderInit (memHeader.c line 262), same regime:
header, then bitmap, then the handle table of 4-byte slots. -/
def rma_dataOffsetOf (totalSize blockSize : Nat) : Nat :=
  rma_headerSize + rma_bitmapSizeOf totalSize blockSize +
    rma_maxBlocksOf totalSize blockSize * 4

/-- numBlocks of rma_memHeaderInit (memHeader.c line 266), same regime. -/
def rma_numBlocksOf (totalSize blockSize : Nat) : Nat :=
  (totalSize - rma_dataOffsetOf totalSize blockSize) / blockSize

/-- Arguments on which the C execution of rma_memHeaderInit is well
defined: a positive block size (no division by zero), a pool large enough
for the header, no size_t wrap, and metadata that fits inside the pool, so
the bitmap memset and all later region accesses stay in bounds. -/
def rma_initFits (totalSize blockSize : Nat) : Prop :=
  1 ≤ blockSize ∧ rma_headerSize ≤ totalSize ∧ totalSize < MOD64 ∧
    rma_dataOffsetOf totalSize blockSize ≤ totalSize

instance (totalSize blockSize : Nat) : Decidable (rma_initFits totalSize blockSize) := by
  unfold rma_initFits
  infer_instance

/-- Two pool states that agree on everything except the handle-table
entries of blocks whose bitmap bit is clear (free blocks, whose entries
are never read by any operation). -/
def FreeTableAgree (h1 h2 : Header) : Prop :=
  h1.totalSize = h2.totalSize ∧ h1.usedSize = h2.usedSize ∧
  h1.blockSize = h2.blockSize ∧ h1.numBlocks = h2.numBlocks ∧
  h1.numAllocated = h2.numAllocated ∧ h1.nextHandle = h2.nextHandle ∧
  h1.bitmapOffset = h2.bitmapOffset ∧
  h1.handleTableOffset = h2.handleTableOffset ∧
  h1.dataOffset = h2.dataOffset ∧ h1.bitmap = h2.bitmap ∧
  h1.handleTable.length = h2.handleTable.length ∧
  ∀ i, i < h1.numBlocks → rma_isBlockAllocated h1.bitmap i = true →
    h1.handleTable.getD i 0 = h2.handleTable.getD i 0

instance (h1 h2 : Header) : Decidable (FreeTableAgree h1 h2) := by
  unfold FreeTableAgree
  infer_instance

/-- Pool states reachable from a well-defined rma_memHeaderInit call by
rma_alloc and rma_free (rma_getPtr does not mutate the pool).  junkTable
is the uninitialised handle-table region malloc returned: exactly
maxPossibleBlocks uint32 slots. -/
inductive Reachable : Header → Prop where
  | init : ∀ totalSize blockSize junkTable h,
      rma_initFits totalSize blockSize →
      junkTable.length = rma_maxBlocksOf totalSize blockSize →
      rma_memHeaderInit totalSize blockSize true junkTable = some h →
      Reachable h
  | alloc : ∀ h r, Reachable h → Reachable (rma_allocCore h r).2
  | free : ∀ h handle, Reachable h → Reachable (rma_freeCore h handle).2

/-- Concrete consistent pool with four free 16-byte blocks. -/
def poolEmpty : Header :=
  { totalSize := 2048, usedSize := 72, blockSize := 16, numBlocks := 4,
    numAllocated := 0, nextHandle := 1, bitmapOffset := 72,
    handleTableOffset := 80, dataOffset := 100,
    bitmap := [0], handleTable := [0, 0, 0, 0] }

/-- Concrete pool whose single block is allocated with salt 5. -/
def poolOne : Header :=
  { totalSize := 2048, usedSize := 88, blockSize := 16, numBlocks := 1,
    numAllocated := 1, nextHandle := 2, bitmapOffset := 72,
    handleTableOffset := 80, dataOffset := 100,
    bitmap := [1], handleTable := [5] }

/-- Concrete pool with a stale handle-table entry (salt 7) whose bitmap bit
has been cleared, the situation the -2 validation code was written for. -/
def poolStale : Header :=
  { totalSize := 2048, usedSize := 72, blockSize := 16, numBlocks := 1,
    numAllocated := 0, nextHandle := 2, bitmapOffset := 72,
    handleTableOffset := 80, dataOffset := 100,
    bitmap := [0], handleTable := [7] }

/-- Concrete consistent pool whose sequence counter has passed 2^16, as
happens after 65535 successful allocations over the pool's lifetime. -/
def poolSeqHigh : Header :=
  { totalSize := 2048, usedSize := 72, blockSize := 16, numBlocks := 4,
    numAllocated := 0, nextHandle := 65536, bitmapOffset := 72,
    handleTableOffset := 80, dataOffset := 100,
    bitmap := [0], handleTable := [0, 0, 0, 0] }

/-- The poolEmpty state with different garbage in the (never-initialised)
handle-table entries of its free blocks. -/
def poolEmptyJunk : Header :=
  { totalSize := 2048, usedSize := 72, blockSize := 16, numBlocks := 4,
    numAllocated := 0, nextHandle := 1, bitmapOffset := 72,
    handleTableOffset := 80, dataOffset := 100,
    bitmap := [0], handleTable := [9, 8, 7, 6] }

/-- The pool rma_memHeaderInit builds for totalSize = 2048, blockSize = 16
(maxPossibleBlocks 123, bitmap 16 bytes, handle table 492 bytes). -/
def pool2048 : Header :=
  { totalSize := 2048, usedSize := 72, blockSize := 16, numBlocks := 91,
    numAllocated := 0, nextHandle := 1, bitmapOffset := 72,
    handleTableOffset := 88, dataOffset := 580,
    bitmap := List.replicate 3 0, handleTable := List.replicate 123 0 }

/-
  General helper lemmas.
-/

theorem lor_ne_zero_left {x y : Nat} (hx : x ≠ 0) : x ||| y ≠ 0 := by
  intro h
  obtain ⟨i, hi⟩ := Nat.ne_zero_implies_bit_true hx
  have hbit : (x ||| y).testBit i = true := by
    simp [Nat.testBit_or, hi]
  rw [h] at hbit
  simp at hbit

theorem generateSaltAux_lt (h : Header) :
    ∀ (n : Nat) (r : Nat → Nat), rma_generateSaltAux h r n < 65536 := by
  intro n
  induction n with
  | zero => intro r; simp [rma_generateSaltAux]
  | succ n ih =>
    intro r
    simp only [rma_generateSaltAux]
    split
    · exact ih _
    · have := Nat.and_le_right (n := r 0) (m := 65535)
      omega

theorem generateSaltAux_no_collision (h : Header) :
    ∀ (n : Nat) (r : Nat → Nat), rma_generateSaltAux h r n ≠ 0 →
      rma_saltCollision h (rma_generateSaltAux h r n) = false := by
  intro n
  induction n with
  | zero => intro r hne; simp [rma_generateSaltAux] at hne
  | succ n ih =>
    intro r hne
    simp only [rma_generateSaltAux] at hne ⊢
    by_cases hc : rma_saltCollision h (r 0 &&& 65535) = true
    · simp only [hc, if_true] at hne ⊢
      exact ih _ hne
    · rw [Bool.not_eq_true] at hc
      simp only [hc, Bool.false_eq_true, if_false] at hne ⊢

theorem generateSaltAux_all_collide (h : Header) :
    ∀ (n : Nat) (r : Nat → Nat),
      (∀ k, k < n → rma_saltCollision h (r k &&& 65535) = true) →
      rma_generateSaltAux h r n = 0 := by
  intro n
  induction n with
  | zero => intro r _; rfl
  | succ n ih =>
    intro r hall
    have h0 := hall 0 (Nat.succ_pos n)
    simp only [rma_generateSaltAux, h0, if_true]
    exact ih _ (fun k hk => hall (k + 1) (by omega))

theorem generateSaltAux_congr (h : Header) :
    ∀ (n : Nat) (r r2 : Nat → Nat), (∀ k, k < n → r k = r2 k) →
      rma_generateSaltAux h r n = rma_generateSaltAux h r2 n := by
  intro n
  induction n with
  | zero => intro r r2 _; rfl
  | succ n ih =>
    intro r r2 hagree
    have h0 : r 0 = r2 0 := hagree 0 (Nat.succ_pos n)
    simp only [rma_generateSaltAux, h0]
    split
    · exact ih _ _ (fun k hk => hagree (k + 1) (by omega))
    · rfl

theorem sub64_eq {a b : Nat} (hle : b ≤ a) (ha : a < MOD64) : sub64 a b = a - b := by
  unfold sub64 MOD64 at *
  omega

theorem add64_eq {a b : Nat} (h : a + b < MOD64) : add64 a b = a + b := by
  unfold add64 MOD64 at *
  omega

theorem getD_set_self (l : List Nat) (i v : Nat) (h : i < l.length) :
    (l.set i v).getD i 0 = v := by
  simp [List.getD_eq_getElem?_getD, List.getElem?_set_self h]

theorem getD_set_ne (l : List Nat) (i j v : Nat) (h : i ≠ j) :
    (l.set i v).getD j 0 = l.getD j 0 := by
  simp [List.getD_eq_getElem?_getD, List.getElem?_set_ne h]

theorem isBlockAllocated_eq_testBit (b : List Nat) (i : Nat) :
    rma_isBlockAllocated b i = (b.getD (i / 32) 0).testBit (i % 32) := by
  unfold rma_isBlockAllocated
  rw [Nat.one_shiftLeft]
  have hand := Nat.and_two_pow (b.getD (i / 32) 0) (i % 32)
  cases htb : (b.getD (i / 32) 0).testBit (i % 32)
  · rw [htb] at hand
    simp only [Bool.toNat_false, Nat.zero_mul] at hand
    rw [hand]
    simp
  · rw [htb] at hand
    simp only [Bool.toNat_true, Nat.one_mul] at hand
    rw [hand]
    simp [(Nat.two_pow_pos (i % 32)).ne']

theorem isBlockAllocated_mark (b : List Nat) (i j : Nat) (hlen : i / 32 < b.length) :
    rma_isBlockAllocated (rma_markBlockAllocated b i) j =
      ((j == i) || rma_isBlockAllocated b j) := by
  rw [isBlockAllocated_eq_testBit, isBlockAllocated_eq_testBit]
  unfold rma_markBlockAllocated
  by_cases hw : i / 32 = j / 32
  · rw [← hw, getD_set_self _ _ _ hlen]
    rw [Nat.one_shiftLeft, Nat.testBit_or, Nat.testBit_two_pow]
    by_cases hij : j = i
    · subst hij
      simp
    · have hbit : ¬(i % 32 = j % 32) := by
        intro hmod
        exact hij (by omega)
      have hji : (j == i) = false := by simp [hij]
      simp [hbit, hji]
  · rw [getD_set_ne _ _ _ _ hw]
    have hji : (j == i) = false := by
      simp only [beq_eq_false_iff_ne, ne_eq]
      intro hji
      exact hw (by rw [hji])
    simp [hji]

theorem isBlockAllocated_markFree (b : List Nat) (i j : Nat) (hlen : i / 32 < b.length) :
    rma_isBlockAllocated (rma_markBlockFree b i) j =
      (!(j == i) && rma_isBlockAllocated b j) := by
  rw [isBlockAllocated_eq_testBit, isBlockAllocated_eq_testBit]
  unfold rma_markBlockFree
  have hmask : (4294967295 : Nat) = 2 ^ 32 - 1 := by norm_num
  by_cases hw : i / 32 = j / 32
  · rw [← hw, getD_set_self _ _ _ hlen]
    rw [Nat.one_shiftLeft, hmask, Nat.testBit_and, Nat.testBit_xor,
      Nat.testBit_two_pow_sub_one, Nat.testBit_two_pow]
    have hj32 : j % 32 < 32 := Nat.mod_lt _ (by omega)
    by_cases hij : j = i
    · subst hij
      simp [hj32]
    · have hbit : ¬(i % 32 = j % 32) := by
        intro hmod
        exact hij (by omega)
      have hji : (j == i) = false := by simp [hij]
      simp [hbit, hji, hj32]
  · rw [getD_set_ne _ _ _ _ hw]
    have hji : (j == i) = false := by
      simp only [beq_eq_false_iff_ne, ne_eq]
      intro hji
      exact hw (by rw [hji])
    simp [hji]

theorem find?_range_eq_none {p : Nat → Bool} {n : Nat} :
    (List.range n).find? p = none ↔ ∀ j, j < n → p j = false := by
  rw [List.find?_eq_none]
  constructor
  · intro h j hj
    have := h j (List.mem_range.mpr hj)
    simpa using this
  · intro h x hx
    rw [List.mem_range] at hx
    simp [h x hx]

theorem find?_range_eq_some {p : Nat → Bool} :
    ∀ n i : Nat, ((List.range n).find? p = some i ↔
      i < n ∧ p i = true ∧ ∀ j, j < i → p j = false) := by
  intro n
  induction n with
  | zero => intro i; simp
  | succ n ih =>
    intro i
    rw [List.range_succ, List.find?_append]
    cases hf : (List.range n).find? p with
    | some k =>
      have hk := (ih k).mp hf
      rw [Option.or_some]
      constructor
      · intro h
        have hki : k = i := by injection h
        subst hki
        exact ⟨by omega, hk.2.1, hk.2.2⟩
      · rintro ⟨hi, hpi, hmin⟩
        have hki : k = i := by
          rcases Nat.lt_trichotomy k i with hlt | heq | hgt
          · have := hmin k hlt
            rw [hk.2.1] at this
            exact absurd this (by simp)
          · exact heq
          · have := hk.2.2 i hgt
            rw [hpi] at this
            exact absurd this (by simp)
        rw [hki]
    | none =>
      rw [Option.none_or]
      have hnone : ∀ j, j < n → p j = false := find?_range_eq_none.mp hf
      cases hpn : p n with
      | true =>
        rw [List.find?_cons_of_pos _ hpn]
        constructor
        · intro h
          have hni : n = i := by injection h
          subst hni
          exact ⟨Nat.lt_succ_self n, hpn, hnone⟩
        · rintro ⟨hi, hpi, hmin⟩
          have hni : n = i := by
            rcases Nat.lt_trichotomy n i with hlt | heq | hgt
            · omega
            · exact heq
            · have := hnone i hgt
              rw [hpi] at this
              exact absurd this (by simp)
          rw [hni]
      | false =>
        rw [List.find?_cons_of_neg _ (by simp [hpn])]
        simp only [List.find?_nil]
        constructor
        · intro h
          exact absurd h (by simp)
        · rintro ⟨hi, hpi, hmin⟩
          exfalso
          rcases Nat.lt_trichotomy n i with hlt | heq | hgt
          · omega
          · subst heq
            rw [hpn] at hpi
            exact absurd hpi (by simp)
          · have := hnone i hgt
            rw [hpi] at this
            exact absurd this (by simp)

theorem count_update_true {p q : Nat → Bool} {i : Nat}
    (hpi : p i = false) (hqi : q i = true)
    (hagree : ∀ j, j ≠ i → q j = p j) :
    ∀ n, i < n →
      ((List.range n).filter q).length = ((List.range n).filter p).length + 1 := by
  intro n
  induction n with
  | zero => omega
  | succ n ih =>
    intro hi
    rw [List.range_succ, List.filter_append, List.filter_append,
      List.length_append, List.length_append]
    by_cases hin : i = n
    · subst hin
      have hcongr : (List.range i).filter q = (List.range i).filter p := by
        apply List.filter_congr
        intro x hx
        rw [List.mem_range] at hx
        exact hagree x (by omega)
      rw [hcongr]
      simp [List.filter, hqi, hpi]
    · have hqn : q n = p n := hagree n (fun h => hin h.symm)
      rw [ih (by omega)]
      simp only [List.filter, hqn]
      omega

theorem count_all_true {p : Nat → Bool} {n : Nat}
    (h : ∀ j, j < n → p j = true) :
    ((List.range n).filter p).length = n := by
  have : (List.range n).filter p = List.range n := by
    rw [List.filter_eq_self]
    intro a ha
    rw [List.mem_range] at ha
    exact h a ha
  rw [this, List.length_range]

theorem count_pos_of_mem {p : Nat → Bool} {n i : Nat} (hi : i < n) (hpi : p i = true) :
    1 ≤ ((List.range n).filter p).length := by
  have hmem : i ∈ (List.range n).filter p :=
    List.mem_filter.mpr ⟨List.mem_range.mpr hi, hpi⟩
  exact List.length_pos.mpr (fun hnil => by simp [hnil] at hmem)

theorem count_le {p : Nat → Bool} {n : Nat} :
    ((List.range n).filter p).length ≤ n := by
  have := List.length_filter_le p (List.range n)
  simpa using this

theorem count_all_false {p : Nat → Bool} {n : Nat} (h : ∀ j, j < n → p j = false) :
    ((List.range n).filter p).length = 0 := by
  rw [List.length_eq_zero, List.filter_eq_nil_iff]
  intro a ha
  rw [List.mem_range] at ha
  simp [h a ha]

theorem isBlockAllocated_replicate_zero (k i : Nat) :
    rma_isBlockAllocated (List.replicate k 0) i = false := by
  rw [isBlockAllocated_eq_testBit]
  have hz : (List.replicate k 0).getD (i / 32) 0 = 0 := by
    rw [List.getD_eq_getElem?_getD, List.getElem?_replicate]
    split <;> rfl
  rw [hz]
  simp

theorem memHeaderInit_eq (totalSize blockSize : Nat) (junkTable : List Nat)
    (hfit : rma_initFits totalSize blockSize) :
    rma_memHeaderInit totalSize blockSize true junkTable = some {
      totalSize := totalSize
      usedSize := rma_headerSize
      blockSize := blockSize
      numBlocks := rma_numBlocksOf totalSize blockSize
      numAllocated := 0
      nextHandle := 1
      bitmapOffset := rma_headerSize
      handleTableOffset := rma_headerSize + rma_bitmapSizeOf totalSize blockSize
      dataOffset := rma_dataOffsetOf totalSize blockSize
      bitmap := List.replicate ((rma_numBlocksOf totalSize blockSize + 31) / 32) 0
      handleTable := junkTable } := by
  obtain ⟨hbs, hTge, hTlt, hdo⟩ := hfit
  have hb1 : rma_headerSize + rma_bitmapSizeOf totalSize blockSize +
      rma_maxBlocksOf totalSize blockSize * 4 ≤ totalSize := by
    unfold rma_dataOffsetOf at hdo
    exact hdo
  have hmle : rma_maxBlocksOf totalSize blockSize ≤ totalSize - rma_headerSize :=
    Nat.div_le_self _ _
  have h1 : sub64 totalSize rma_headerSize = totalSize - rma_headerSize :=
    sub64_eq (by unfold rma_headerSize at *; omega) hTlt
  have h2 : add64 ((totalSize - rma_headerSize) / blockSize) 31 =
      (totalSize - rma_headerSize) / blockSize + 31 := by
    apply add64_eq
    unfold rma_maxBlocksOf at hmle
    unfold MOD64 rma_headerSize at *
    omega
  have h3 : ((totalSize - rma_headerSize) / blockSize + 31) / 32 * 4 % MOD64 =
      rma_bitmapSizeOf totalSize blockSize := by
    unfold rma_bitmapSizeOf rma_maxBlocksOf
    apply Nat.mod_eq_of_lt
    unfold rma_bitmapSizeOf rma_maxBlocksOf at hb1
    unfold MOD64 at *
    omega
  have h4 : (totalSize - rma_headerSize) / blockSize * 4 % MOD64 =
      rma_maxBlocksOf totalSize blockSize * 4 := by
    unfold rma_maxBlocksOf
    apply Nat.mod_eq_of_lt
    unfold rma_maxBlocksOf at hb1
    unfold MOD64 at *
    omega
  have h5 : add64 rma_headerSize (rma_bitmapSizeOf totalSize blockSize) =
      rma_headerSize + rma_bitmapSizeOf totalSize blockSize := by
    apply add64_eq
    unfold MOD64 at *
    omega
  have h6 : add64 (rma_headerSize + rma_bitmapSizeOf totalSize blockSize)
      (rma_maxBlocksOf totalSize blockSize * 4) = rma_dataOffsetOf totalSize blockSize := by
    unfold rma_dataOffsetOf
    apply add64_eq
    unfold MOD64 at *
    omega
  have h7 : sub64 totalSize (rma_dataOffsetOf totalSize blockSize) =
      totalSize - rma_dataOffsetOf totalSize blockSize :=
    sub64_eq hdo hTlt
  unfold rma_memHeaderInit
  rw [if_neg (by simp)]
  simp only [h1, h2, h3, h4, h5, h6, h7]
  rfl

theorem memHeaderInit_inv (totalSize blockSize : Nat) (junkTable : List Nat)
    (h : Header) (hfit : rma_initFits totalSize blockSize)
    (hlen : junkTable.length = rma_maxBlocksOf totalSize blockSize)
    (heq : rma_memHeaderInit totalSize blockSize true junkTable = some h) :
    PoolInv h := by
  rw [memHeaderInit_eq totalSize blockSize junkTable hfit] at heq
  obtain ⟨hbs, hTge, hTlt, hdo⟩ := hfit
  injection heq with heq
  subst heq
  refine ⟨?_, ?_, ?_, hbs, ?_, ?_, hTlt, ?_, ?_, ?_⟩
  · dsimp only
    unfold rma_allocCount
    exact (count_all_false (fun j _ => isBlockAllocated_replicate_zero _ j)).symm
  · intro i _ j _ hai
    rw [isBlockAllocated_replicate_zero] at hai
    exact absurd hai (by simp)
  · dsimp only
    simp
  · dsimp only
    unfold rma_dataOffsetOf
    omega
  · dsimp only
    have := Nat.div_mul_le_self (totalSize - rma_dataOffsetOf totalSize blockSize) blockSize
    unfold rma_numBlocksOf rma_dataOffsetOf at *
    omega
  · dsimp only
    unfold MOD32
    omega
  · dsimp only
    rw [hlen]
    unfold rma_numBlocksOf
    apply Nat.le_trans (Nat.div_le_div_right (Nat.sub_le_sub_left ?_ totalSize))
    · exact Nat.le_refl _
    · unfold rma_dataOffsetOf
      omega
  · dsimp only
    simp

theorem allocCore_fail_unchanged (h : Header) (r : Nat → Nat)
    (hfail : (rma_allocCore h r).1 = 0) : (rma_allocCore h r).2 = h := by
  revert hfail
  unfold rma_allocCore
  by_cases h1 : h.numAllocated ≥ h.numBlocks
  · simp [h1]
  · by_cases h2 : (h.nextHandle == 0) = true
    · simp [h1, h2]
    · by_cases h3 : (rma_generateSalt h r == 0) = true
      · simp [h1, h2, h3]
      · simp only [h1, h2, h3, if_false, Bool.false_eq_true]
        intro hfail
        exfalso
        rw [beq_iff_eq] at h3
        have hs : rma_generateSalt h r <<< 16 ≠ 0 := by
          rw [Nat.shiftLeft_eq]
          exact Nat.mul_ne_zero h3 (Nat.two_pow_pos 16).ne'
        exact lor_ne_zero_left hs hfail

theorem allocCore_success (h : Header) (r : Nat → Nat) (hinv : PoolInv h)
    (hsucc : (rma_allocCore h r).1 ≠ 0) :
    ∃ salt freeIdx : Nat,
      salt = rma_generateSalt h r ∧
      freeIdx = (((List.range h.numBlocks).find? (fun blockIndex =>
        !rma_isBlockAllocated h.bitmap blockIndex)).getD 0) ∧
      1 ≤ salt ∧ salt < 65536 ∧
      (∀ i, i < h.numBlocks → rma_isBlockAllocated h.bitmap i = true →
        h.handleTable.getD i 0 ≠ salt) ∧
      freeIdx < h.numBlocks ∧
      rma_isBlockAllocated h.bitmap freeIdx = false ∧
      h.numAllocated < h.numBlocks ∧
      1 ≤ h.nextHandle ∧
      rma_allocCore h r = ((salt <<< 16) ||| h.nextHandle, { h with
        handleTable := h.handleTable.set freeIdx salt
        numAllocated := h.numAllocated + 1
        nextHandle := (h.nextHandle + 1) % MOD32
        usedSize := h.usedSize + h.blockSize
        bitmap := rma_markBlockAllocated h.bitmap freeIdx }) := by
  by_cases h1 : h.numAllocated ≥ h.numBlocks
  · exfalso
    apply hsucc
    unfold rma_allocCore
    simp [h1]
  by_cases h2 : (h.nextHandle == 0) = true
  · exfalso
    apply hsucc
    unfold rma_allocCore
    simp [h1, h2]
  by_cases h3 : (rma_generateSalt h r == 0) = true
  · exfalso
    apply hsucc
    unfold rma_allocCore
    simp [h1, h2, h3]
  rw [beq_iff_eq] at h3
  obtain ⟨hcnt, hinj, huse, hbs, hdof, hfit2, hT, hnh32, htlen, hblen⟩ := hinv
  have hlt : h.numAllocated < h.numBlocks := by omega
  -- the bitmap scan finds a free block because the count is below capacity
  have hex : ∃ j, j < h.numBlocks ∧ rma_isBlockAllocated h.bitmap j = false := by
    by_contra hall
    push_neg at hall
    have hall2 : ∀ j, j < h.numBlocks → rma_isBlockAllocated h.bitmap j = true := by
      intro j hj
      have := hall j hj
      cases hb : rma_isBlockAllocated h.bitmap j
      · exact absurd hb this
      · rfl
    have := count_all_true (p := fun j => rma_isBlockAllocated h.bitmap j) hall2
    unfold rma_allocCount at hcnt
    omega
  have hfind : (List.range h.numBlocks).find? (fun blockIndex =>
      !rma_isBlockAllocated h.bitmap blockIndex) ≠ none := by
    intro hnone
    rw [find?_range_eq_none] at hnone
    obtain ⟨j, hj, hfree⟩ := hex
    have := hnone j hj
    rw [hfree] at this
    simp at this
  obtain ⟨k, hfb⟩ := Option.ne_none_iff_exists'.mp hfind
  have hk := (find?_range_eq_some _ k).mp hfb
  have hb1 : (h.numAllocated + 1) * h.blockSize ≤ h.numBlocks * h.blockSize :=
    Nat.mul_le_mul_right _ (by omega)
  have husedM : h.usedSize + h.blockSize < MOD64 := by
    rw [huse, Nat.succ_mul] at *
    unfold rma_headerSize MOD64 at *
    omega
  have hallocM : h.numAllocated + 1 < MOD64 := by
    have := Nat.le_mul_of_pos_right h.numBlocks (show 0 < h.blockSize by omega)
    unfold MOD64 at *
    omega
  refine ⟨rma_generateSalt h r, k, rfl, by rw [hfb]; rfl, by omega, ?_, ?_, hk.1, ?_, hlt, ?_, ?_⟩
  · exact generateSaltAux_lt h 10 r
  · intro i hi halloc heq
    have hnc := generateSaltAux_no_collision h 10 r h3
    unfold rma_saltCollision at hnc
    rw [List.any_eq_false] at hnc
    have := hnc i (List.mem_range.mpr hi)
    simp only [Bool.and_eq_true, beq_iff_eq, not_and] at this
    exact this halloc heq
  · have := hk.2.1
    simp only [Bool.not_eq_true'] at this
    exact this
  · rw [beq_iff_eq] at h2
    omega
  · unfold rma_allocCore
    rw [if_neg h1, if_neg h2, hfb]
    rw [if_neg (by rw [beq_iff_eq]; exact h3)]
    dsimp only [Option.getD_some]
    rw [add64_eq hallocM, add64_eq husedM]

theorem allocCore_preserves_inv (h : Header) (r : Nat → Nat) (hinv : PoolInv h) :
    PoolInv (rma_allocCore h r).2 := by
  by_cases hs : (rma_allocCore h r).1 = 0
  · rw [allocCore_fail_unchanged h r hs]
    exact hinv
  · obtain ⟨salt, freeIdx, hsalt, hfi, hs1, hs16, hnocol, hfil, hfree, hlt, hnh1, heq⟩ :=
      allocCore_success h r hinv hs
    rw [heq]
    obtain ⟨hcnt, hinj, huse, hbs, hdo, hfit2, hT, hnh32, htlen, hblen⟩ := hinv
    have hwlen : freeIdx / 32 < h.bitmap.length := by omega
    have hmark : ∀ j, rma_isBlockAllocated (rma_markBlockAllocated h.bitmap freeIdx) j =
        ((j == freeIdx) || rma_isBlockAllocated h.bitmap j) :=
      fun j => isBlockAllocated_mark h.bitmap freeIdx j hwlen
    refine ⟨?_, ?_, ?_, hbs, hdo, hfit2, hT, ?_, ?_, ?_⟩
    · dsimp only
      unfold rma_allocCount
      dsimp only
      rw [count_update_true (p := fun j => rma_isBlockAllocated h.bitmap j)
        (i := freeIdx) hfree (by rw [hmark]; simp) ?_ h.numBlocks hfil]
      · unfold rma_allocCount at hcnt
        omega
      · intro j hj
        rw [hmark j]
        have : (j == freeIdx) = false := by simp [hj]
        rw [this, Bool.false_or]
    · intro i hi j hj hai haj hent
      dsimp only at hi hj hai haj hent
      rw [hmark] at hai haj
      by_cases hif : i = freeIdx
      · by_cases hjf : j = freeIdx
        · rw [hif, hjf]
        · exfalso
          have hentl : (h.handleTable.set freeIdx salt).getD i 0 = salt := by
            rw [hif]
            exact getD_set_self _ _ _ (by omega)
          have hentr : (h.handleTable.set freeIdx salt).getD j 0 =
              h.handleTable.getD j 0 :=
            getD_set_ne _ _ _ _ (fun hh => hjf hh.symm)
          have haj2 : rma_isBlockAllocated h.bitmap j = true := by
            have hb : (j == freeIdx) = false := by simp [hjf]
            rw [hb, Bool.false_or] at haj
            exact haj
          rw [hentl, hentr] at hent
          exact (hnocol j hj haj2) hent.symm
      · by_cases hjf : j = freeIdx
        · exfalso
          have hentr : (h.handleTable.set freeIdx salt).getD j 0 = salt := by
            rw [hjf]
            exact getD_set_self _ _ _ (by omega)
          have hentl : (h.handleTable.set freeIdx salt).getD i 0 =
              h.handleTable.getD i 0 :=
            getD_set_ne _ _ _ _ (fun hh => hif hh.symm)
          have hai2 : rma_isBlockAllocated h.bitmap i = true := by
            have hb : (i == freeIdx) = false := by simp [hif]
            rw [hb, Bool.false_or] at hai
            exact hai
          rw [hentl, hentr] at hent
          exact (hnocol i hi hai2) hent
        · have hai2 : rma_isBlockAllocated h.bitmap i = true := by
            have hb : (i == freeIdx) = false := by simp [hif]
            rw [hb, Bool.false_or] at hai
            exact hai
          have haj2 : rma_isBlockAllocated h.bitmap j = true := by
            have hb : (j == freeIdx) = false := by simp [hjf]
            rw [hb, Bool.false_or] at haj
            exact haj
          rw [getD_set_ne _ _ _ _ (fun hh => hif hh.symm),
            getD_set_ne _ _ _ _ (fun hh => hjf hh.symm)] at hent
          exact hinj i hi j hj hai2 haj2 hent
    · dsimp only
      rw [huse, Nat.succ_mul]
      omega
    · dsimp only
      exact Nat.mod_lt _ (by unfold MOD32; omega)
    · dsimp only
      rw [List.length_set]
      exact htlen
    · dsimp only
      unfold rma_markBlockAllocated
      rw [List.length_set]
      exact hblen

/-- rma_isValidHandle evaluates to 1 exactly on the branch where the find
succeeded, matching lines 207-215 of memHeader.c. -/
theorem isValidHandle_found (h : Header) (handle idx : Nat) (hne : handle ≠ 0)
    (hfb : rma_findBlockByHandle h handle = some idx) :
    rma_isValidHandle (some h) handle = 1 := by
  have h0 : (handle == 0) = false := by simp [hne]
  have hp := List.find?_some hfb
  simp only [Bool.and_eq_true, beq_iff_eq] at hp
  simp [rma_isValidHandle, h0, hfb, hp.1]

theorem isValidHandle_not_found (h : Header) (handle : Nat) (hne : handle ≠ 0)
    (hfb : rma_findBlockByHandle h handle = none) :
    rma_isValidHandle (some h) handle = -1 := by
  have h0 : (handle == 0) = false := by simp [hne]
  simp [rma_isValidHandle, h0, hfb]

theorem isValidHandle_pos_elim (h : Header) (handle : Nat)
    (hv : ¬ rma_isValidHandle (some h) handle ≤ 0) :
    handle ≠ 0 ∧ ∃ idx, rma_findBlockByHandle h handle = some idx := by
  by_cases hne : handle = 0
  · exfalso
    apply hv
    simp [rma_isValidHandle, hne]
  · refine ⟨hne, ?_⟩
    cases hfb : rma_findBlockByHandle h handle with
    | none =>
      exfalso
      apply hv
      rw [isValidHandle_not_found h handle hne hfb]
      omega
    | some idx => exact ⟨idx, rfl⟩

theorem freeCore_not_valid (h : Header) (handle : Nat)
    (hv : rma_isValidHandle (some h) handle ≤ 0) :
    rma_freeCore h handle = (rma_isValidHandle (some h) handle, h) := by
  unfold rma_freeCore
  rw [if_pos hv]

theorem freeCore_found (h : Header) (handle idx : Nat) (hne : handle ≠ 0)
    (hfb : rma_findBlockByHandle h handle = some idx) :
    rma_freeCore h handle = (1, { h with
      bitmap := rma_markBlockFree h.bitmap idx
      handleTable := h.handleTable.set idx 0
      numAllocated := sub64 h.numAllocated 1
      usedSize := sub64 h.usedSize h.blockSize }) := by
  have hv := isValidHandle_found h handle idx hne hfb
  unfold rma_freeCore
  rw [hv]
  rw [if_neg (by omega), hfb]

theorem findBlock_some_spec (h : Header) (handle idx : Nat)
    (hfb : rma_findBlockByHandle h handle = some idx) :
    idx < h.numBlocks ∧ rma_isBlockAllocated h.bitmap idx = true ∧
      h.handleTable.getD idx 0 = (handle >>> 16) &&& 65535 := by
  unfold rma_findBlockByHandle at hfb
  have hk := (find?_range_eq_some _ idx).mp hfb
  have hp := hk.2.1
  simp only [Bool.and_eq_true, beq_iff_eq] at hp
  exact ⟨hk.1, hp.1, hp.2⟩

theorem findBlock_eq_some (h : Header) (handle idx : Nat)
    (hidx : idx < h.numBlocks)
    (halloc : rma_isBlockAllocated h.bitmap idx = true)
    (hentry : h.handleTable.getD idx 0 = (handle >>> 16) &&& 65535)
    (huniq : ∀ j, j < h.numBlocks → j ≠ idx →
      rma_isBlockAllocated h.bitmap j = true →
      h.handleTable.getD j 0 ≠ (handle >>> 16) &&& 65535) :
    rma_findBlockByHandle h handle = some idx := by
  unfold rma_findBlockByHandle
  rw [find?_range_eq_some]
  refine ⟨hidx, ?_, ?_⟩
  · simp only [halloc, Bool.true_and, beq_iff_eq]
    exact hentry
  · intro j hj
    by_cases haj : rma_isBlockAllocated h.bitmap j = true
    · have hne2 := huniq j (by omega) (by omega) haj
      simp only [haj, Bool.true_and, beq_eq_false_iff_ne, ne_eq]
      exact hne2
    · rw [Bool.not_eq_true] at haj
      simp only [haj, Bool.false_and]

theorem findBlock_eq_none (h : Header) (handle : Nat)
    (hnone : ∀ j, j < h.numBlocks → rma_isBlockAllocated h.bitmap j = true →
      h.handleTable.getD j 0 ≠ (handle >>> 16) &&& 65535) :
    rma_findBlockByHandle h handle = none := by
  unfold rma_findBlockByHandle
  rw [find?_range_eq_none]
  intro j hj
  by_cases haj : rma_isBlockAllocated h.bitmap j = true
  · simp only [haj, Bool.true_and, beq_eq_false_iff_ne, ne_eq]
    exact hnone j hj haj
  · rw [Bool.not_eq_true] at haj
    simp only [haj, Bool.false_and]

theorem freeCore_preserves_inv (h : Header) (handle : Nat) (hinv : PoolInv h) :
    PoolInv (rma_freeCore h handle).2 := by
  by_cases hv : rma_isValidHandle (some h) handle ≤ 0
  · rw [freeCore_not_valid h handle hv]
    exact hinv
  · obtain ⟨hne, idx, hfb⟩ := isValidHandle_pos_elim h handle hv
    rw [freeCore_found h handle idx hne hfb]
    obtain ⟨hidx, halloc, hentry⟩ := findBlock_some_spec h handle idx hfb
    obtain ⟨hcnt, hinj, huse, hbs, hdo, hfit2, hT, hnh32, htlen, hblen⟩ := hinv
    have hwlen : idx / 32 < h.bitmap.length := by omega
    have hmark : ∀ j, rma_isBlockAllocated (rma_markBlockFree h.bitmap idx) j =
        (!(j == idx) && rma_isBlockAllocated h.bitmap j) :=
      fun j => isBlockAllocated_markFree h.bitmap idx j hwlen
    have hcpos : 1 ≤ rma_allocCount h := by
      unfold rma_allocCount
      exact count_pos_of_mem hidx halloc
    have hcle : rma_allocCount h ≤ h.numBlocks := by
      unfold rma_allocCount
      exact count_le
    unfold rma_allocCount at hcnt hcpos hcle
    have hnbs : h.numBlocks ≤ h.numBlocks * h.blockSize :=
      Nat.le_mul_of_pos_right _ (by omega)
    have hcM : rma_allocCount h < MOD64 := by
      unfold rma_allocCount
      unfold MOD64 at *
      omega
    -- the new count is one less than the old
    have hstep : ((List.range h.numBlocks).filter (fun j =>
        rma_isBlockAllocated h.bitmap j)).length =
        ((List.range h.numBlocks).filter (fun j =>
          rma_isBlockAllocated (rma_markBlockFree h.bitmap idx) j)).length + 1 := by
      apply count_update_true (i := idx)
      · simp only [hmark]
        simp
      · exact halloc
      · intro j hj
        simp only [hmark]
        have hb : (j == idx) = false := by simp [hj]
        rw [hb]
        simp
      · exact hidx
    refine ⟨?_, ?_, ?_, hbs, hdo, hfit2, hT, hnh32, ?_, ?_⟩
    · dsimp only
      unfold rma_allocCount
      dsimp only
      rw [sub64_eq (by omega) (by unfold MOD64 at *; omega)]
      omega
    · intro i hi j hj hai haj hent
      dsimp only at hi hj hai haj hent
      rw [hmark] at hai haj
      simp only [Bool.and_eq_true, Bool.not_eq_true', beq_eq_false_iff_ne, ne_eq] at hai haj
      rw [getD_set_ne _ _ _ _ (fun hh => hai.1 hh.symm),
        getD_set_ne _ _ _ _ (fun hh => haj.1 hh.symm)] at hent
      exact hinj i hi j hj hai.2 haj.2 hent
    · dsimp only
      have husz : h.usedSize = rma_headerSize + h.numAllocated * h.blockSize := huse
      have hblk : h.blockSize ≤ h.numAllocated * h.blockSize :=
        Nat.le_mul_of_pos_left _ (by omega)
      have huszM : h.usedSize < MOD64 := by
        have h1 : h.numAllocated * h.blockSize ≤ h.numBlocks * h.blockSize :=
          Nat.mul_le_mul_right _ (by omega)
        unfold MOD64 rma_headerSize at *
        omega
      have hsub : (h.numAllocated - 1) * h.blockSize =
          h.numAllocated * h.blockSize - h.blockSize := by
        rw [Nat.sub_mul, Nat.one_mul]
      rw [sub64_eq (by omega) huszM,
        sub64_eq (by omega) (by unfold MOD64 at *; omega)]
      omega
    · dsimp only
      rw [List.length_set]
      exact htlen
    · dsimp only
      unfold rma_markBlockFree
      rw [List.length_set]
      exact hblen

theorem count_lt_of_false {p : Nat → Bool} {n j : Nat} (hj : j < n) (hpj : p j = false) :
    ((List.range n).filter p).length < n := by
  have hstep := count_update_true (p := p) (q := fun x => (x == j) || p x) (i := j)
    hpj (by simp)
    (fun k hk => by
      have hb : (k == j) = false := by simp [hk]
      show ((k == j) || p k) = p k
      rw [hb, Bool.false_or])
    n hj
  have hle : ((List.range n).filter (fun x => (x == j) || p x)).length ≤ n := count_le
  omega

/-- Combining a 16-bit salt with a sequence value below 2^16 and shifting
back recovers the salt; this is what rma_findBlockByHandle relies on. -/
theorem handle_shiftRight (salt n : Nat) (hn : n < 65536) :
    ((salt <<< 16) ||| n) >>> 16 = salt := by
  have h2 : (65536 : Nat) = 2 ^ 16 := by norm_num
  rw [h2] at hn
  rw [Nat.shiftLeft_eq, Nat.mul_comm, ← Nat.mul_add_lt_is_or hn,
    Nat.shiftRight_eq_div_pow, Nat.mul_add_div (Nat.two_pow_pos 16),
    Nat.div_eq_of_lt hn]
  omega

theorem and_mask16_of_lt {x : Nat} (hx : x < 65536) : x &&& 65535 = x := by
  have h1 : (65535 : Nat) = 2 ^ 16 - 1 := by norm_num
  have h2 : x < 2 ^ 16 := by omega
  rw [h1]
  exact Nat.and_pow_two_sub_one_of_lt_two_pow h2

theorem getPtr_of_not_valid (h : Header) (handle : Nat)
    (hv : rma_isValidHandle (some h) handle ≤ 0) :
    rma_getPtr (some h) handle = none := by
  unfold rma_getPtr
  dsimp only
  rw [if_pos hv]

theorem getPtr_of_found (h : Header) (handle idx : Nat) (hne : handle ≠ 0)
    (hfb : rma_findBlockByHandle h handle = some idx) :
    rma_getPtr (some h) handle = some (rma_getBlockPtr h idx) := by
  have hv := isValidHandle_found h handle idx hne hfb
  unfold rma_getPtr
  dsimp only
  rw [if_neg (by rw [hv]; omega), hfb]

theorem reachable_inv : ∀ h, Reachable h → PoolInv h := by
  intro h hr
  induction hr with
  | init totalSize blockSize junkTable h hfit hlen heq =>
    exact memHeaderInit_inv totalSize blockSize junkTable h hfit hlen heq
  | alloc h r _ ih => exact allocCore_preserves_inv h r ih
  | free h handle _ ih => exact freeCore_preserves_inv h handle ih

/-
  Claim theorems.
-/

/-- C1: the claim says rma_memHeaderInit rejects totalSize ≤ 1 KiB, a
non-positive blockSize, or a totalSize too small for the header, returning
NULL.  The code performs no argument validation at all: whenever malloc
succeeds it returns the pool, whatever the arguments -- in particular for
totalSize = 512 ≤ 1 KiB, contradicting the documented contract in
memHeader.h (totalSize "must be > 1KB"). -/
theorem c1_init_performs_no_validation :
    (∀ (totalSize blockSize : Nat) (junkTable : List Nat),
      (rma_memHeaderInit totalSize blockSize true junkTable).isSome = true) ∧
    (rma_memHeaderInit 512 16 true (List.replicate 27 0)).isSome = true := by
  constructor
  · intro totalSize blockSize junkTable
    rfl
  · rfl

/-- The -2 outcome of rma_isValidHandle never occurs for any state and
handle: rma_findBlockByHandle only returns indices whose bitmap bit is
set, so the subsequent allocation check cannot fail. -/
theorem isValidHandle_ne_minus_two :
    ∀ (header : Option Header) (handle : Nat),
      rma_isValidHandle header handle ≠ -2 := by
  intro header handle
  match header with
  | none => simp [rma_isValidHandle]
  | some h =>
    simp only [rma_isValidHandle]
    by_cases h0 : handle == 0
    · simp [h0]
    · simp only [h0, Bool.false_eq_true, if_false]
      cases hfb : rma_findBlockByHandle h handle with
      | none => simp
      | some blockIndex =>
        have hp := List.find?_some hfb
        simp only [Bool.and_eq_true, beq_iff_eq] at hp
        simp [hp.1]

/-- C2 counterexample: the claim asserts the found-but-not-allocated -2
outcome actually occurs; but on the very configuration it is meant for --
pool poolStale stores salt 7 (the top half of handle 0x70000) in the
table entry of block 0 while block 0's bitmap bit is clear -- validation
reports -1, indistinguishable from plain not-found, because the find
already skips free blocks. -/
theorem c2_minus_two_is_dead_code :
    poolStale.handleTable.getD 0 0 = 458752 >>> 16 ∧
    rma_isBlockAllocated poolStale.bitmap 0 = false ∧
    rma_isValidHandle (some poolStale) 458752 = -1 := by
  exact ⟨by decide, by decide, by decide⟩

/-- C2 amended: validation yields exactly three reachable outcomes -- 1
when the header is non-null, the handle nonzero and some allocated block's
table entry matches the handle's salt; 0 when the header is null or the
handle is zero; -1 when no allocated block matches -- and rma_free passes
a non-positive validation code through unchanged.  The -2 branch exists in
the source but is dead code. -/
theorem c2_validation_three_outcomes :
    (∀ handle : Nat, rma_isValidHandle none handle = 0) ∧
    (∀ h : Header, rma_isValidHandle (some h) 0 = 0) ∧
    (∀ (h : Header) (handle : Nat), handle ≠ 0 →
      rma_findBlockByHandle h handle = none →
      rma_isValidHandle (some h) handle = -1) ∧
    (∀ (h : Header) (handle blockIndex : Nat), handle ≠ 0 →
      rma_findBlockByHandle h handle = some blockIndex →
      rma_isValidHandle (some h) handle = 1) ∧
    (∀ (header : Option Header) (handle : Nat),
      rma_isValidHandle header handle ≤ 0 →
      rma_free header handle = (rma_isValidHandle header handle, header)) ∧
    (∀ (header : Option Header) (handle : Nat),
      rma_isValidHandle header handle ≠ -2) := by
  refine ⟨fun _ => rfl, fun h => by simp [rma_isValidHandle], ?_, ?_, ?_,
    isValidHandle_ne_minus_two⟩
  · intro h handle hne hfb
    have h0 : (handle == 0) = false := by simp [hne]
    simp [rma_isValidHandle, h0, hfb]
  · intro h handle blockIndex hne hfb
    have h0 : (handle == 0) = false := by simp [hne]
    have hp := List.find?_some hfb
    simp only [Bool.and_eq_true, beq_iff_eq] at hp
    simp [rma_isValidHandle, h0, hfb, hp.1]
  · intro header handle hv
    match header with
    | none => rfl
    | some h =>
      simp only [rma_free, rma_freeCore]
      rw [if_pos hv]

/-- C2 witness: the stale-handle situation the spec intends for -2 (table
entry 7 left behind, bitmap bit cleared) in fact reports -1. -/
theorem c2_validation_three_outcomes_witness :
    (458752 ≠ 0 ∧ rma_findBlockByHandle poolStale 458752 = none) ∧
    rma_isValidHandle (some poolStale) 458752 = -1 := by
  refine ⟨⟨by decide, by decide⟩, ?_⟩
  exact c2_validation_three_outcomes.2.2.1 poolStale 458752 (by decide) (by decide)

/-- C6: a failed rma_alloc (returning RMA_INVALID_HANDLE = 0) and a failed
rma_free (returning a non-positive code) leave the entire pool state --
usedSize, numAllocated, nextHandle, bitmap and handle table -- exactly as
it was. -/
theorem c6_failed_calls_do_not_mutate :
    (∀ (header : Option Header) (r : Nat → Nat),
      (rma_alloc header r).1 = 0 → (rma_alloc header r).2 = header) ∧
    (∀ (header : Option Header) (handle : Nat),
      (rma_free header handle).1 ≤ 0 → (rma_free header handle).2 = header) := by
  constructor
  · intro header r hfail
    match header with
    | none => rfl
    | some h =>
      simp only [rma_alloc, Option.some.injEq] at hfail ⊢
      revert hfail
      unfold rma_allocCore
      by_cases h1 : h.numAllocated ≥ h.numBlocks
      · simp [h1]
      · by_cases h2 : (h.nextHandle == 0) = true
        · simp [h1, h2]
        · by_cases h3 : (rma_generateSalt h r == 0) = true
          · simp [h1, h2, h3]
          · simp only [h1, h2, h3, if_false, Bool.false_eq_true]
            intro hfail
            exfalso
            rw [beq_iff_eq] at h3
            have hs : rma_generateSalt h r <<< 16 ≠ 0 := by
              rw [Nat.shiftLeft_eq]
              exact Nat.mul_ne_zero h3 (Nat.pos_iff_ne_zero.mp (Nat.two_pow_pos 16))
            exact lor_ne_zero_left hs hfail
  · intro header handle hfail
    match header with
    | none => rfl
    | some h =>
      simp only [rma_free, Option.some.injEq] at hfail ⊢
      revert hfail
      unfold rma_freeCore
      by_cases hv : rma_isValidHandle (some h) handle ≤ 0
      · simp [hv]
      · simp only [hv, if_false]
        cases hfb : rma_findBlockByHandle h handle with
        | none => simp
        | some blockIndex =>
          simp only []
          intro hfail
          exfalso
          omega
  
/-- C6 witness: allocation on a NULL pool fails and changes nothing, and
freeing an unknown handle on a concrete pool fails and changes nothing. -/
theorem c6_failed_calls_do_not_mutate_witness :
    (rma_alloc none (fun _ => 0)).2 = none ∧
    (rma_free (some poolEmpty) 123).2 = some poolEmpty := by
  constructor
  · exact c6_failed_calls_do_not_mutate.1 none (fun _ => 0) rfl
  · exact c6_failed_calls_do_not_mutate.2 (some poolEmpty) 123 (by decide)

/-- C7: rma_generateSalt draws 16-bit candidates rand() & 0xFFFF; a
returned nonzero salt collides with no currently allocated block's
handle-table entry; if all candidates collide the call returns 0; and the
result depends on at most the first 10 values the rand stream yields. -/
theorem c7_generateSalt_spec :
    ∀ (header : Header) (r : Nat → Nat),
      (rma_generateSalt header r ≠ 0 →
        ∀ i, i < header.numBlocks →
          rma_isBlockAllocated header.bitmap i = true →
          header.handleTable.getD i 0 ≠ rma_generateSalt header r) ∧
      ((∀ k, k < 10 → rma_saltCollision header (r k &&& 65535) = true) →
        rma_generateSalt header r = 0) ∧
      (∀ r2 : Nat → Nat, (∀ k, k < 10 → r k = r2 k) →
        rma_generateSalt header r = rma_generateSalt header r2) := by
  intro header r
  refine ⟨?_, ?_, ?_⟩
  · intro hne i hi halloc heq
    have hnc := generateSaltAux_no_collision header 10 r hne
    unfold rma_saltCollision at hnc
    rw [List.any_eq_false] at hnc
    have hmem : i ∈ List.range header.numBlocks := List.mem_range.mpr hi
    have := hnc i hmem
    simp only [Bool.and_eq_true, beq_iff_eq, not_and] at this
    exact this halloc heq
  · exact generateSaltAux_all_collide header 10 r
  · exact fun r2 hagree => generateSaltAux_congr header 10 r r2 hagree

/-- C7 witness: on a pool whose only live salt is 5, a rand stream that
always yields 5 collides on all ten attempts and the call fails with 0. -/
theorem c7_generateSalt_spec_witness :
    (∀ k, k < 10 → rma_saltCollision poolOne ((fun _ => 5) k &&& 65535) = true) ∧
    rma_generateSalt poolOne (fun _ => 5) = 0 := by
  refine ⟨by decide, ?_⟩
  exact (c7_generateSalt_spec poolOne (fun _ => 5)).2.1 (by decide)

/-- C8: rma_findBlockByHandle only consults the top 16 bits of the handle;
two nonzero 32-bit handles with the same top half resolve identically,
whatever their low 16 bits. -/
theorem c8_resolution_ignores_low_bits :
    ∀ (header : Header) (h1 h2 : Nat), h1 ≠ 0 → h2 ≠ 0 →
      h1 < MOD32 → h2 < MOD32 → h1 >>> 16 = h2 >>> 16 →
      rma_findBlockByHandle header h1 = rma_findBlockByHandle header h2 := by
  intro header h1 h2 _ _ _ _ heq
  unfold rma_findBlockByHandle
  rw [heq]

/-- C8 witness: handles 0x10001 and 0x1FFFF share the salt half 1 and
resolve identically on a concrete pool. -/
theorem c8_resolution_ignores_low_bits_witness :
    (65537 ≠ 0 ∧ 131071 ≠ 0 ∧ 65537 < MOD32 ∧ 131071 < MOD32 ∧
      65537 >>> 16 = 131071 >>> 16) ∧
    rma_findBlockByHandle poolOne 65537 = rma_findBlockByHandle poolOne 131071 := by
  refine ⟨⟨by decide, by decide, by decide, by decide, by decide⟩, ?_⟩
  exact c8_resolution_ignores_low_bits poolOne 65537 131071 (by decide) (by decide)
    (by decide) (by decide) (by decide)

/-- C9: in every pool state reachable from rma_memHeaderInit by rma_alloc
and rma_free calls (rma_getPtr does not mutate), numAllocated equals the
number of block indices below numBlocks whose bitmap bit is set, hence
numAllocated ≤ numBlocks, and the full-pool check numAllocated ≥ numBlocks
coincides with the bitmap scan finding no free block. -/
theorem c9_numAllocated_matches_bitmap :
    ∀ h, Reachable h →
      h.numAllocated = rma_allocCount h ∧
      h.numAllocated ≤ h.numBlocks ∧
      (h.numAllocated ≥ h.numBlocks ↔
        (List.range h.numBlocks).find? (fun blockIndex =>
          !rma_isBlockAllocated h.bitmap blockIndex) = none) := by
  intro h hr
  have hinv := reachable_inv h hr
  have hcnt := hinv.1
  have hle : h.numAllocated ≤ h.numBlocks := by
    rw [hcnt]
    unfold rma_allocCount
    exact count_le
  refine ⟨hcnt, hle, ?_, ?_⟩
  · intro hge
    rw [find?_range_eq_none]
    intro k hk
    cases hb : rma_isBlockAllocated h.bitmap k with
    | true => simp [hb]
    | false =>
      exfalso
      have hlt : ((List.range h.numBlocks).filter (fun blockIndex =>
          rma_isBlockAllocated h.bitmap blockIndex)).length < h.numBlocks :=
        count_lt_of_false hk hb
      unfold rma_allocCount at hcnt
      omega
  · intro hnone
    rw [find?_range_eq_none] at hnone
    have hall : ∀ j, j < h.numBlocks → rma_isBlockAllocated h.bitmap j = true := by
      intro j hj
      have := hnone j hj
      simpa using this
    have hlen2 : ((List.range h.numBlocks).filter (fun blockIndex =>
        rma_isBlockAllocated h.bitmap blockIndex)).length = h.numBlocks :=
      count_all_true hall
    unfold rma_allocCount at hcnt
    omega

set_option maxRecDepth 100000 in
/-- C9 witness: the freshly initialised 2048-byte pool with 16-byte blocks
is reachable and satisfies the bitmap-count invariant. -/
theorem c9_numAllocated_matches_bitmap_witness :
    Reachable pool2048 ∧
      (pool2048.numAllocated = rma_allocCount pool2048 ∧
        pool2048.numAllocated ≤ pool2048.numBlocks ∧
        (pool2048.numAllocated ≥ pool2048.numBlocks ↔
          (List.range pool2048.numBlocks).find? (fun blockIndex =>
            !rma_isBlockAllocated pool2048.bitmap blockIndex) = none)) := by
  have hre : Reachable pool2048 :=
    Reachable.init 2048 16 (List.replicate 123 0) pool2048 (by decide) (by decide)
      (by decide)
  exact ⟨hre, c9_numAllocated_matches_bitmap pool2048 hre⟩

/-- C5 counterexample: two argument pairs meeting the claim's preconditions
(totalSize > 1 KiB, blockSize > 0) violate the claimed layout invariant.
For (2000, 5000) the two-pass estimate gives zero blocks, so bitmapOffset =
handleTableOffset = dataOffset = 72.  For (1025, 1) the handle table alone
overflows the pool: dataOffset = 4004 > 1025, and remainingSpace
underflows size_t. -/
theorem c5_layout_counterexample :
    (1024 < 2000 ∧ 1 ≤ 5000 ∧
      (rma_memHeaderInit 2000 5000 true []).map
        (fun h => decide (h.bitmapOffset < h.handleTableOffset)) = some false) ∧
    (1024 < 1025 ∧ 1 ≤ 1 ∧
      (rma_memHeaderInit 1025 1 true []).map
        (fun h => decide (h.dataOffset ≤ h.totalSize)) = some false) := by
  refine ⟨⟨by omega, by omega, ?_⟩, ⟨by omega, by omega, ?_⟩⟩
  · rfl
  · rfl

/-- C5 amended: the layout invariant bitmapOffset < handleTableOffset <
dataOffset ≤ totalSize and dataOffset + numBlocks * blockSize ≤ totalSize
holds for totalSize > 1 KiB provided additionally blockSize ≥ 5 (for
smaller blocks the 4-byte handle-table slots outgrow the pool) and
blockSize ≤ totalSize - 72 (so at least one block fits the first
estimate). -/
theorem c5_layout_invariant :
    ∀ (totalSize blockSize : Nat) (junkTable : List Nat) (h : Header),
      1024 < totalSize → 5 ≤ blockSize →
      blockSize ≤ totalSize - rma_headerSize → totalSize < MOD64 →
      rma_memHeaderInit totalSize blockSize true junkTable = some h →
      h.bitmapOffset < h.handleTableOffset ∧
      h.handleTableOffset < h.dataOffset ∧
      h.dataOffset ≤ h.totalSize ∧
      h.dataOffset + h.numBlocks * h.blockSize ≤ h.totalSize := by
  intro T bs junk h h1024 hbs5 hbsle hTM heq
  have hbs : 1 ≤ bs := by omega
  have hTge : rma_headerSize ≤ T := by
    unfold rma_headerSize
    omega
  have hm1 : 1 ≤ rma_maxBlocksOf T bs := by
    unfold rma_maxBlocksOf
    rw [Nat.one_le_div_iff (by omega)]
    exact hbsle
  have h5m : 5 * rma_maxBlocksOf T bs ≤ T - rma_headerSize := by
    unfold rma_maxBlocksOf
    calc 5 * ((T - rma_headerSize) / bs)
        ≤ bs * ((T - rma_headerSize) / bs) := Nat.mul_le_mul_right _ hbs5
      _ ≤ T - rma_headerSize := by
          rw [Nat.mul_comm]
          exact Nat.div_mul_le_self _ _
  have hq : 32 * ((rma_maxBlocksOf T bs + 31) / 32) ≤ rma_maxBlocksOf T bs + 31 := by
    rw [Nat.mul_comm]
    exact Nat.div_mul_le_self _ _
  have hfitT : rma_dataOffsetOf T bs ≤ T := by
    unfold rma_dataOffsetOf rma_bitmapSizeOf
    unfold rma_headerSize at *
    omega
  have hfit : rma_initFits T bs := ⟨hbs, hTge, hTM, hfitT⟩
  rw [memHeaderInit_eq T bs junk hfit] at heq
  injection heq with heq
  subst heq
  dsimp only
  refine ⟨?_, ?_, hfitT, ?_⟩
  · unfold rma_bitmapSizeOf
    have hq1 : 1 ≤ (rma_maxBlocksOf T bs + 31) / 32 := by
      rw [Nat.one_le_div_iff (by omega)]
      omega
    omega
  · unfold rma_dataOffsetOf
    omega
  · have := Nat.div_mul_le_self (T - rma_dataOffsetOf T bs) bs
    unfold rma_numBlocksOf
    omega

set_option maxRecDepth 100000 in
/-- C5 witness: the (2048, 16) pool meets the amended hypotheses and its
layout satisfies the invariant (offsets 72 < 88 < 580 ≤ 2048, and
580 + 91 * 16 = 2036 ≤ 2048). -/
theorem c5_layout_invariant_witness :
    (1024 < 2048 ∧ 5 ≤ 16 ∧ 16 ≤ 2048 - rma_headerSize ∧ 2048 < MOD64 ∧
      rma_memHeaderInit 2048 16 true (List.replicate 123 0) = some pool2048) ∧
    (pool2048.bitmapOffset < pool2048.handleTableOffset ∧
      pool2048.handleTableOffset < pool2048.dataOffset ∧
      pool2048.dataOffset ≤ pool2048.totalSize ∧
      pool2048.dataOffset + pool2048.numBlocks * pool2048.blockSize ≤
        pool2048.totalSize) := by
  refine ⟨⟨by decide, by decide, by decide, by decide, by decide⟩, ?_⟩
  exact c5_layout_invariant 2048 16 (List.replicate 123 0) pool2048
    (by decide) (by decide) (by decide) (by decide) (by decide)

/-- C4 counterexample: from the consistent pool poolSeqHigh, whose sequence
counter has reached 65536 (as after 65535 successful allocations),
rma_alloc succeeds with handle 0x30000, but immediately freeing that very
handle fails with -1 and the pool still has the block allocated:
nextHandle's bit 16 has bled into the salt half of the handle, so
resolution looks up salt 3 while the table stores 2. -/
theorem c4_alloc_free_counterexample :
    PoolInv poolSeqHigh ∧ poolSeqHigh.nextHandle = 65536 ∧
    (rma_allocCore poolSeqHigh (fun _ => 2)).1 = 196608 ∧
    rma_freeCore (rma_allocCore poolSeqHigh (fun _ => 2)).2 196608 =
      (-1, (rma_allocCore poolSeqHigh (fun _ => 2)).2) ∧
    (rma_allocCore poolSeqHigh (fun _ => 2)).2.numAllocated = 1 ∧
    poolSeqHigh.numAllocated = 0 := by
  exact ⟨by decide, by decide, by decide, by decide, by decide, by decide⟩

/-- C4 amended: for every consistent pool state whose sequence counter is
still below 2^16, if rma_alloc succeeds with handle h then immediately
freeing h succeeds, restores numAllocated and usedSize to their values
before the allocation, and afterwards rma_getPtr returns NULL and
validation reports the negative not-found code. -/
theorem c4_alloc_then_free_inverse :
    ∀ (h : Header) (r : Nat → Nat),
      PoolInv h → h.nextHandle < 65536 →
      (rma_allocCore h r).1 ≠ 0 →
      (rma_freeCore (rma_allocCore h r).2 (rma_allocCore h r).1).1 = 1 ∧
      (rma_freeCore (rma_allocCore h r).2 (rma_allocCore h r).1).2.numAllocated =
        h.numAllocated ∧
      (rma_freeCore (rma_allocCore h r).2 (rma_allocCore h r).1).2.usedSize =
        h.usedSize ∧
      rma_getPtr (some (rma_freeCore (rma_allocCore h r).2 (rma_allocCore h r).1).2)
        (rma_allocCore h r).1 = none ∧
      rma_isValidHandle (some (rma_freeCore (rma_allocCore h r).2 (rma_allocCore h r).1).2)
        (rma_allocCore h r).1 < 0 := by
  intro h r hinv hnh16 hsucc
  obtain ⟨salt, freeIdx, hsalt, hfi, hs1, hs16, hnocol, hfil, hfree, hlt, hnh1, heq⟩ :=
    allocCore_success h r hinv hsucc
  obtain ⟨hcnt, hinj, huse, hbs, hdo, hfit2, hT, hnh32, htlen, hblen⟩ := hinv
  have hwlen : freeIdx / 32 < h.bitmap.length := by omega
  have hmark := fun j => isBlockAllocated_mark h.bitmap freeIdx j hwlen
  set H1 : Header := { h with
    handleTable := h.handleTable.set freeIdx salt
    numAllocated := h.numAllocated + 1
    nextHandle := (h.nextHandle + 1) % MOD32
    usedSize := h.usedSize + h.blockSize
    bitmap := rma_markBlockAllocated h.bitmap freeIdx } with hH1
  have hne : (salt <<< 16) ||| h.nextHandle ≠ 0 := by
    apply lor_ne_zero_left
    rw [Nat.shiftLeft_eq]
    exact Nat.mul_ne_zero (by omega) (Nat.two_pow_pos 16).ne'
  have hsalte : (((salt <<< 16) ||| h.nextHandle) >>> 16) &&& 65535 = salt := by
    rw [handle_shiftRight salt h.nextHandle hnh16]
    exact and_mask16_of_lt hs16
  have halloc1 : rma_isBlockAllocated H1.bitmap freeIdx = true := by
    show rma_isBlockAllocated (rma_markBlockAllocated h.bitmap freeIdx) freeIdx = true
    rw [hmark]
    simp
  have hent1 : H1.handleTable.getD freeIdx 0 = salt := by
    show (h.handleTable.set freeIdx salt).getD freeIdx 0 = salt
    exact getD_set_self _ _ _ (by omega)
  have hallocOld : ∀ j, j ≠ freeIdx → rma_isBlockAllocated H1.bitmap j = true →
      rma_isBlockAllocated h.bitmap j = true := by
    intro j hjne hallocj
    have hthis : rma_isBlockAllocated (rma_markBlockAllocated h.bitmap freeIdx) j = true :=
      hallocj
    rw [hmark] at hthis
    have hb : (j == freeIdx) = false := by simp [hjne]
    rw [hb, Bool.false_or] at hthis
    exact hthis
  have hentOld : ∀ j, j ≠ freeIdx → H1.handleTable.getD j 0 = h.handleTable.getD j 0 := by
    intro j hjne
    exact getD_set_ne _ _ _ _ (fun hh => hjne hh.symm)
  have hfb1 : rma_findBlockByHandle H1 ((salt <<< 16) ||| h.nextHandle) = some freeIdx := by
    apply findBlock_eq_some
    · exact hfil
    · exact halloc1
    · rw [hent1, hsalte]
    · intro j hj hjne hallocj
      rw [hsalte, hentOld j hjne]
      exact hnocol j hj (hallocOld j hjne hallocj)
  have hfreeEq := freeCore_found H1 ((salt <<< 16) ||| h.nextHandle) freeIdx hne hfb1
  have hallocM : h.numAllocated + 1 < MOD64 := by
    have hnbs := Nat.le_mul_of_pos_right h.numBlocks (show 0 < h.blockSize by omega)
    unfold MOD64 at *
    omega
  have husedM : h.usedSize + h.blockSize < MOD64 := by
    have hb1 : (h.numAllocated + 1) * h.blockSize ≤ h.numBlocks * h.blockSize :=
      Nat.mul_le_mul_right _ (by omega)
    rw [huse, Nat.succ_mul] at *
    unfold rma_headerSize MOD64 at *
    omega
  have hwlen1 : freeIdx / 32 < H1.bitmap.length := by
    show freeIdx / 32 < (rma_markBlockAllocated h.bitmap freeIdx).length
    unfold rma_markBlockAllocated
    rw [List.length_set]
    exact hwlen
  have hmark2 := fun j => isBlockAllocated_markFree H1.bitmap freeIdx j hwlen1
  set H2 : Header := { H1 with
    bitmap := rma_markBlockFree H1.bitmap freeIdx
    handleTable := H1.handleTable.set freeIdx 0
    numAllocated := sub64 H1.numAllocated 1
    usedSize := sub64 H1.usedSize H1.blockSize } with hH2
  have hfb2 : rma_findBlockByHandle H2 ((salt <<< 16) ||| h.nextHandle) = none := by
    apply findBlock_eq_none
    intro j hj hallocj
    rw [hsalte]
    have hthis : (!(j == freeIdx) && rma_isBlockAllocated H1.bitmap j) = true := by
      have hx : rma_isBlockAllocated (rma_markBlockFree H1.bitmap freeIdx) j = true :=
        hallocj
      rw [hmark2] at hx
      exact hx
    simp only [Bool.and_eq_true, Bool.not_eq_true', beq_eq_false_iff_ne, ne_eq] at hthis
    have hje : H2.handleTable.getD j 0 = H1.handleTable.getD j 0 := by
      show (H1.handleTable.set freeIdx 0).getD j 0 = H1.handleTable.getD j 0
      exact getD_set_ne _ _ _ _ (fun hh => hthis.1 hh.symm)
    rw [hje, hentOld j hthis.1]
    exact hnocol j hj (hallocOld j hthis.1 hthis.2)
  have hv2 : rma_isValidHandle (some H2) ((salt <<< 16) ||| h.nextHandle) = -1 :=
    isValidHandle_not_found H2 _ hne hfb2
  rw [heq]
  dsimp only
  rw [hfreeEq]
  dsimp only
  refine ⟨rfl, ?_, ?_, ?_, ?_⟩
  · show sub64 H1.numAllocated 1 = h.numAllocated
    show sub64 (h.numAllocated + 1) 1 = h.numAllocated
    rw [sub64_eq (by omega) hallocM]
    omega
  · show sub64 H1.usedSize H1.blockSize = h.usedSize
    show sub64 (h.usedSize + h.blockSize) h.blockSize = h.usedSize
    rw [sub64_eq (by omega) husedM]
    omega
  · exact getPtr_of_not_valid H2 _ (by rw [hv2]; omega)
  · rw [hv2]
    omega

/-- C4 witness: on the empty four-block pool, allocation with a rand
stream yielding salt 2 succeeds, and the immediate free succeeds and
restores the counters, after which the handle no longer resolves. -/
theorem c4_alloc_then_free_inverse_witness :
    (PoolInv poolEmpty ∧ poolEmpty.nextHandle < 65536 ∧
      (rma_allocCore poolEmpty (fun _ => 2)).1 ≠ 0) ∧
    ((rma_freeCore (rma_allocCore poolEmpty (fun _ => 2)).2
        (rma_allocCore poolEmpty (fun _ => 2)).1).1 = 1 ∧
      (rma_freeCore (rma_allocCore poolEmpty (fun _ => 2)).2
        (rma_allocCore poolEmpty (fun _ => 2)).1).2.numAllocated =
        poolEmpty.numAllocated ∧
      (rma_freeCore (rma_allocCore poolEmpty (fun _ => 2)).2
        (rma_allocCore poolEmpty (fun _ => 2)).1).2.usedSize =
        poolEmpty.usedSize ∧
      rma_getPtr (some (rma_freeCore (rma_allocCore poolEmpty (fun _ => 2)).2
        (rma_allocCore poolEmpty (fun _ => 2)).1).2)
        (rma_allocCore poolEmpty (fun _ => 2)).1 = none ∧
      rma_isValidHandle (some (rma_freeCore (rma_allocCore poolEmpty (fun _ => 2)).2
        (rma_allocCore poolEmpty (fun _ => 2)).1).2)
        (rma_allocCore poolEmpty (fun _ => 2)).1 < 0) := by
  refine ⟨⟨by decide, by decide, by decide⟩, ?_⟩
  exact c4_alloc_then_free_inverse poolEmpty (fun _ => 2) (by decide) (by decide)
    (by decide)

/-- Run lemma for iterated allocation: starting from a consistent pool with
sequence headroom and capacity for all the calls, a run of successful
rma_alloc calls preserves the invariant and the layout fields, keeps every
previously allocated block and its table entry, and produces pairwise
distinct block indices whose table entries store the salts of the returned
handles. -/
theorem allocN_spec :
    ∀ (rs : List (Nat → Nat)) (h : Header),
      PoolInv h →
      h.nextHandle + rs.length ≤ 65536 →
      1 ≤ h.nextHandle →
      h.numAllocated + rs.length ≤ h.numBlocks →
      (∀ x ∈ (rma_allocN h rs).1, x ≠ 0) →
      PoolInv (rma_allocN h rs).2 ∧
      (rma_allocN h rs).1.length = rs.length ∧
      (rma_allocN h rs).2.numBlocks = h.numBlocks ∧
      (rma_allocN h rs).2.dataOffset = h.dataOffset ∧
      (rma_allocN h rs).2.blockSize = h.blockSize ∧
      (rma_allocN h rs).2.totalSize = h.totalSize ∧
      (∀ i, i < h.numBlocks → rma_isBlockAllocated h.bitmap i = true →
        rma_isBlockAllocated (rma_allocN h rs).2.bitmap i = true ∧
        (rma_allocN h rs).2.handleTable.getD i 0 = h.handleTable.getD i 0) ∧
      ∃ idxs : List Nat,
        idxs.length = rs.length ∧
        (∀ k, k < rs.length →
          idxs.getD k 0 < h.numBlocks ∧
          rma_isBlockAllocated h.bitmap (idxs.getD k 0) = false ∧
          rma_isBlockAllocated (rma_allocN h rs).2.bitmap (idxs.getD k 0) = true ∧
          (rma_allocN h rs).2.handleTable.getD (idxs.getD k 0) 0 =
            ((rma_allocN h rs).1.getD k 0) >>> 16 ∧
          ((rma_allocN h rs).1.getD k 0) >>> 16 < 65536 ∧
          1 ≤ ((rma_allocN h rs).1.getD k 0) >>> 16 ∧
          ((rma_allocN h rs).1.getD k 0) ≠ 0) ∧
        (∀ k l, k < rs.length → l < rs.length → k ≠ l →
          idxs.getD k 0 ≠ idxs.getD l 0) := by
  intro rs
  induction rs with
  | nil =>
    intro h hinv hnh hnh1 hcap hsucc
    refine ⟨hinv, rfl, rfl, rfl, rfl, rfl, ?_, [], rfl, ?_, ?_⟩
    · intro i _ halloc
      exact ⟨halloc, rfl⟩
    · intro k hk
      exact absurd hk (by simp)
    · intro k l hk _ _
      exact absurd hk (by simp)
  | cons r rs ih =>
    intro h hinv hnh hnh1 hcap hsucc
    have hN1 : (rma_allocN h (r :: rs)).1 =
        (rma_allocCore h r).1 :: (rma_allocN (rma_allocCore h r).2 rs).1 := rfl
    have hN2 : (rma_allocN h (r :: rs)).2 = (rma_allocN (rma_allocCore h r).2 rs).2 := rfl
    have hs0 : (rma_allocCore h r).1 ≠ 0 := by
      apply hsucc
      rw [hN1]
      exact List.mem_cons_self _ _
    obtain ⟨salt, freeIdx, hsalt, hfi, hs1, hs16, hnocol, hfil, hfree, hlt, hnh1b, heq⟩ :=
      allocCore_success h r hinv hs0
    obtain ⟨hcnt, hinj, huse, hbs, hdo, hfit2, hT, hnh32, htlen, hblen⟩ := hinv
    have hinv1 : PoolInv (rma_allocCore h r).2 :=
      allocCore_preserves_inv h r
        ⟨hcnt, hinj, huse, hbs, hdo, hfit2, hT, hnh32, htlen, hblen⟩
    have hwlen : freeIdx / 32 < h.bitmap.length := by omega
    have hmark := fun j => isBlockAllocated_mark h.bitmap freeIdx j hwlen
    have hhd : (rma_allocCore h r).1 = (salt <<< 16) ||| h.nextHandle := by rw [heq]
    have hnb1 : (rma_allocCore h r).2.numBlocks = h.numBlocks := by rw [heq]
    have hdo1 : (rma_allocCore h r).2.dataOffset = h.dataOffset := by rw [heq]
    have hbsz1 : (rma_allocCore h r).2.blockSize = h.blockSize := by rw [heq]
    have htsz1 : (rma_allocCore h r).2.totalSize = h.totalSize := by rw [heq]
    have hbm1 : (rma_allocCore h r).2.bitmap = rma_markBlockAllocated h.bitmap freeIdx := by
      rw [heq]
    have hht1 : (rma_allocCore h r).2.handleTable = h.handleTable.set freeIdx salt := by
      rw [heq]
    have hna1 : (rma_allocCore h r).2.numAllocated = h.numAllocated + 1 := by rw [heq]
    have hnx1 : (rma_allocCore h r).2.nextHandle = h.nextHandle + 1 := by
      rw [heq]
      dsimp only
      apply Nat.mod_eq_of_lt
      unfold MOD32
      simp only [List.length_cons] at hnh
      omega
    simp only [List.length_cons] at hnh hcap
    have ihh := ih (rma_allocCore h r).2 hinv1
      (by rw [hnx1]; omega)
      (by rw [hnx1]; omega)
      (by rw [hna1, hnb1]; omega)
      (by
        intro x hx
        apply hsucc
        rw [hN1]
        exact List.mem_cons_of_mem _ hx)
    obtain ⟨ihInv, ihLen, ihNb, ihDo, ihBs, ihTs, ihKeep, idxs, ihIdxLen, ihIdx, ihDist⟩ := ihh
    -- previously allocated blocks survive the first call
    have hkeep1 : ∀ i, i < h.numBlocks → rma_isBlockAllocated h.bitmap i = true →
        rma_isBlockAllocated (rma_allocCore h r).2.bitmap i = true ∧
        (rma_allocCore h r).2.handleTable.getD i 0 = h.handleTable.getD i 0 := by
      intro i hi halloc
      have hine : i ≠ freeIdx := by
        intro hh
        rw [hh, hfree] at halloc
        exact absurd halloc (by simp)
      constructor
      · rw [hbm1, hmark]
        simp [halloc]
      · rw [hht1]
        exact getD_set_ne _ _ _ _ (fun hh => hine hh.symm)
    refine ⟨by rw [hN2]; exact ihInv, ?_, ?_, ?_, ?_, ?_, ?_, freeIdx :: idxs, ?_, ?_, ?_⟩
    · rw [hN1]
      simp only [List.length_cons, ihLen]
    · rw [hN2, ihNb, hnb1]
    · rw [hN2, ihDo, hdo1]
    · rw [hN2, ihBs, hbsz1]
    · rw [hN2, ihTs, htsz1]
    · intro i hi halloc
      have hk1 := hkeep1 i hi halloc
      have hk2 := ihKeep i (by rw [hnb1]; exact hi) hk1.1
      rw [hN2]
      exact ⟨hk2.1, by rw [hk2.2, hk1.2]⟩
    · simp only [List.length_cons, ihIdxLen]
    · intro k hk
      simp only [List.length_cons] at hk
      cases k with
      | zero =>
        simp only [List.getD_cons_zero]
        have hallocFree1 : rma_isBlockAllocated (rma_allocCore h r).2.bitmap freeIdx = true := by
          rw [hbm1, hmark]
          simp
        have hent1 : (rma_allocCore h r).2.handleTable.getD freeIdx 0 = salt := by
          rw [hht1]
          exact getD_set_self _ _ _ (by omega)
        have hk2 := ihKeep freeIdx (by rw [hnb1]; exact hfil) hallocFree1
        have hshift : ((salt <<< 16) ||| h.nextHandle) >>> 16 = salt :=
          handle_shiftRight salt h.nextHandle (by omega)
        refine ⟨hfil, hfree, ?_, ?_, ?_, ?_, ?_⟩
        · rw [hN2]
          exact hk2.1
        · rw [hN1, hN2]
          simp only [List.getD_cons_zero]
          rw [hk2.2, hent1, hhd, hshift]
        · rw [hN1]
          simp only [List.getD_cons_zero]
          rw [hhd, hshift]
          exact hs16
        · rw [hN1]
          simp only [List.getD_cons_zero]
          rw [hhd, hshift]
          exact hs1
        · rw [hN1]
          simp only [List.getD_cons_zero]
          exact hs0
      | succ k =>
        simp only [List.getD_cons_succ]
        have hk2 := ihIdx k (by omega)
        refine ⟨by rw [← hnb1]; exact hk2.1, ?_, ?_, ?_, ?_, ?_, ?_⟩
        · have hfree1 := hk2.2.1
          rw [hbm1, hmark] at hfree1
          cases hb : (idxs.getD k 0 == freeIdx)
          · rw [hb, Bool.false_or] at hfree1
            exact hfree1
          · rw [hb, Bool.true_or] at hfree1
            exact absurd hfree1 (by simp)
        · rw [hN2]
          exact hk2.2.2.1
        · rw [hN1, hN2]
          simp only [List.getD_cons_succ]
          exact hk2.2.2.2.1
        · rw [hN1]
          simp only [List.getD_cons_succ]
          exact hk2.2.2.2.2.1
        · rw [hN1]
          simp only [List.getD_cons_succ]
          exact hk2.2.2.2.2.2.1
        · rw [hN1]
          simp only [List.getD_cons_succ]
          exact hk2.2.2.2.2.2.2
    · intro k l hk hl hkl
      simp only [List.length_cons] at hk hl
      cases k with
      | zero =>
        cases l with
        | zero => exact absurd rfl hkl
        | succ l =>
          simp only [List.getD_cons_zero, List.getD_cons_succ]
          intro hcontra
          have hfree2 := (ihIdx l (by omega)).2.1
          rw [← hcontra, hbm1, hmark] at hfree2
          simp at hfree2
      | succ k =>
        cases l with
        | zero =>
          simp only [List.getD_cons_zero, List.getD_cons_succ]
          intro hcontra
          have hfree2 := (ihIdx k (by omega)).2.1
          rw [hcontra, hbm1, hmark] at hfree2
          simp at hfree2
        | succ l =>
          simp only [List.getD_cons_succ]
          exact ihDist k l (by omega) (by omega) (by omega)

/-- C3 counterexample: from the consistent pool poolSeqHigh (sequence
counter at 65536, zero blocks allocated, four free), a single successful
rma_alloc yields a handle that rma_getPtr cannot resolve at all -- it
returns NULL rather than a data-region address -- because the sequence
counter has corrupted the salt half of the handle. -/
theorem c3_uniqueness_counterexample :
    PoolInv poolSeqHigh ∧
    poolSeqHigh.numAllocated + 1 ≤ poolSeqHigh.numBlocks ∧
    (∀ x ∈ (rma_allocN poolSeqHigh [fun _ => 2]).1, x ≠ 0) ∧
    rma_getPtr (some (rma_allocN poolSeqHigh [fun _ => 2]).2)
      ((rma_allocN poolSeqHigh [fun _ => 2]).1.getD 0 0) = none := by
  exact ⟨by decide, by decide, by decide, by decide⟩

/-- C3 amended: for every consistent pool whose sequence counter plus the
number of calls stays within 2^16, N successful rma_alloc calls with no
intervening frees return pairwise distinct handles, and rma_getPtr
resolves each of them, in the final state, to a distinct block address
inside the data region. -/
theorem c3_unique_handles_and_addresses :
    ∀ (h : Header) (rs : List (Nat → Nat)),
      PoolInv h →
      h.nextHandle + rs.length ≤ 65536 →
      1 ≤ h.nextHandle →
      h.numAllocated + rs.length ≤ h.numBlocks →
      (∀ x ∈ (rma_allocN h rs).1, x ≠ 0) →
      (∀ k l, k < rs.length → l < rs.length → k ≠ l →
        (rma_allocN h rs).1.getD k 0 ≠ (rma_allocN h rs).1.getD l 0) ∧
      (∀ k, k < rs.length → ∃ v,
        rma_getPtr (some (rma_allocN h rs).2) ((rma_allocN h rs).1.getD k 0) =
          some v ∧
        h.dataOffset ≤ v ∧
        v + h.blockSize ≤ h.dataOffset + h.numBlocks * h.blockSize) ∧
      (∀ k l, k < rs.length → l < rs.length → k ≠ l →
        rma_getPtr (some (rma_allocN h rs).2) ((rma_allocN h rs).1.getD k 0) ≠
          rma_getPtr (some (rma_allocN h rs).2) ((rma_allocN h rs).1.getD l 0)) := by
  intro h rs hinv hnh hnh1 hcap hsucc
  obtain ⟨finInv, hLen, hNb, hDo, hBs, hTs, hKeep, idxs, hIdxLen, hIdx, hDist⟩ :=
    allocN_spec rs h hinv hnh hnh1 hcap hsucc
  have hfbk : ∀ k, k < rs.length →
      rma_findBlockByHandle (rma_allocN h rs).2 ((rma_allocN h rs).1.getD k 0) =
        some (idxs.getD k 0) := by
    intro k hk
    obtain ⟨hk1, hk2free, hk3alloc, hk4ent, hk5lt, hk6ge, hk7ne⟩ := hIdx k hk
    apply findBlock_eq_some
    · rw [hNb]
      exact hk1
    · exact hk3alloc
    · rw [hk4ent, and_mask16_of_lt hk5lt]
    · intro j hj hjne hallocj
      rw [and_mask16_of_lt hk5lt]
      intro hentj
      exact hjne (finInv.2.1 j hj (idxs.getD k 0) (by rw [hNb]; exact hk1) hallocj
        hk3alloc (by rw [hentj, hk4ent]))
  have hgetk : ∀ k, k < rs.length →
      rma_getPtr (some (rma_allocN h rs).2) ((rma_allocN h rs).1.getD k 0) =
        some ((h.dataOffset + idxs.getD k 0 * h.blockSize) % MOD64) := by
    intro k hk
    obtain ⟨hk1, _, _, _, _, _, hk7ne⟩ := hIdx k hk
    rw [getPtr_of_found (rma_allocN h rs).2 _ _ hk7ne (hfbk k hk)]
    unfold rma_getBlockPtr
    rw [hDo, hBs]
  have haddr : ∀ k, k < rs.length →
      (h.dataOffset + idxs.getD k 0 * h.blockSize) % MOD64 =
        h.dataOffset + idxs.getD k 0 * h.blockSize ∧
      h.dataOffset + idxs.getD k 0 * h.blockSize + h.blockSize ≤
        h.dataOffset + h.numBlocks * h.blockSize := by
    intro k hk
    obtain ⟨hk1, _, _, _, _, _, _⟩ := hIdx k hk
    have hbs2 : 1 ≤ h.blockSize := hinv.2.2.2.1
    have hfit3 : h.dataOffset + h.numBlocks * h.blockSize ≤ h.totalSize :=
      hinv.2.2.2.2.2.1
    have hT2 : h.totalSize < MOD64 := hinv.2.2.2.2.2.2.1
    have hmul : (idxs.getD k 0 + 1) * h.blockSize ≤ h.numBlocks * h.blockSize :=
      Nat.mul_le_mul_right _ (by omega)
    rw [Nat.succ_mul] at hmul
    constructor
    · apply Nat.mod_eq_of_lt
      unfold MOD64 at *
      omega
    · omega
  refine ⟨?_, ?_, ?_⟩
  · intro k l hk hl hkl hcontra
    obtain ⟨hk1, _, hk3, hk4, _, _, _⟩ := hIdx k hk
    obtain ⟨hl1, _, hl3, hl4, _, _, _⟩ := hIdx l hl
    apply hDist k l hk hl hkl
    apply finInv.2.1 _ (by rw [hNb]; exact hk1) _ (by rw [hNb]; exact hl1) hk3 hl3
    rw [hk4, hl4, hcontra]
  · intro k hk
    refine ⟨h.dataOffset + idxs.getD k 0 * h.blockSize, ?_, ?_, ?_⟩
    · rw [hgetk k hk, (haddr k hk).1]
    · omega
    · exact (haddr k hk).2
  · intro k l hk hl hkl
    rw [hgetk k hk, hgetk l hl, (haddr k hk).1, (haddr l hl).1]
    intro hcontra
    injection hcontra with hcontra
    have hbs2 : 1 ≤ h.blockSize := hinv.2.2.2.1
    have hmul : idxs.getD k 0 * h.blockSize = idxs.getD l 0 * h.blockSize := by omega
    have hik : idxs.getD k 0 = idxs.getD l 0 :=
      Nat.eq_of_mul_eq_mul_right (by omega) hmul
    exact hDist k l hk hl hkl hik

/-- C3 witness: two successful allocations on the empty four-block pool,
with rand streams yielding salts 2 and 3, return the distinct handles
0x20001 and 0x30002, which resolve to distinct in-region addresses. -/
theorem c3_unique_handles_and_addresses_witness :
    (PoolInv poolEmpty ∧
      poolEmpty.nextHandle + 2 ≤ 65536 ∧ 1 ≤ poolEmpty.nextHandle ∧
      poolEmpty.numAllocated + 2 ≤ poolEmpty.numBlocks ∧
      (∀ x ∈ (rma_allocN poolEmpty [fun _ => 2, fun _ => 3]).1, x ≠ 0)) ∧
    ((rma_allocN poolEmpty [fun _ => 2, fun _ => 3]).1.getD 0 0 ≠
      (rma_allocN poolEmpty [fun _ => 2, fun _ => 3]).1.getD 1 0 ∧
      rma_getPtr (some (rma_allocN poolEmpty [fun _ => 2, fun _ => 3]).2)
        ((rma_allocN poolEmpty [fun _ => 2, fun _ => 3]).1.getD 0 0) ≠
      rma_getPtr (some (rma_allocN poolEmpty [fun _ => 2, fun _ => 3]).2)
        ((rma_allocN poolEmpty [fun _ => 2, fun _ => 3]).1.getD 1 0)) := by
  have hmain := c3_unique_handles_and_addresses poolEmpty [fun _ => 2, fun _ => 3]
    (by decide) (by decide) (by decide) (by decide) (by decide)
  refine ⟨⟨by decide, by decide, by decide, by decide, by decide⟩, ?_, ?_⟩
  · exact hmain.1 0 1 (by decide) (by decide) (by decide)
  · exact hmain.2.2 0 1 (by decide) (by decide) (by decide)

theorem any_range_congr {p q : Nat → Bool} {n : Nat} (h : ∀ j, j < n → p j = q j) :
    (List.range n).any p = (List.range n).any q := by
  cases hq : (List.range n).any q
  · rw [List.any_eq_false] at hq ⊢
    intro x hx
    rw [List.mem_range] at hx
    rw [h x hx]
    exact hq x (List.mem_range.mpr hx)
  · rw [List.any_eq_true] at hq ⊢
    obtain ⟨x, hx, hqx⟩ := hq
    rw [List.mem_range] at hx
    exact ⟨x, List.mem_range.mpr hx, by rw [h x hx]; exact hqx⟩

theorem find?_range_congr {p q : Nat → Bool} {n : Nat} (h : ∀ j, j < n → p j = q j) :
    (List.range n).find? p = (List.range n).find? q := by
  cases hq : (List.range n).find? q with
  | none =>
    rw [find?_range_eq_none] at hq ⊢
    intro j hj
    rw [h j hj]
    exact hq j hj
  | some i =>
    have hi := (find?_range_eq_some _ i).mp hq
    rw [find?_range_eq_some]
    exact ⟨hi.1, by rw [h i hi.1]; exact hi.2.1,
      fun j hj => by rw [h j (by omega)]; exact hi.2.2 j hj⟩

theorem saltCollision_state_congr (h1 h2 : Header) (hR : FreeTableAgree h1 h2) :
    ∀ salt, rma_saltCollision h1 salt = rma_saltCollision h2 salt := by
  obtain ⟨hts, hus, hbs, hnb, hna, hnh, hbo, hho, hdo, hbm, hlen, hagree⟩ := hR
  rw [hnb, hbm] at hagree
  intro salt
  unfold rma_saltCollision
  rw [hnb, hbm]
  apply any_range_congr
  intro j hj
  by_cases halloc : rma_isBlockAllocated h2.bitmap j = true
  · rw [hagree j hj halloc]
  · rw [Bool.not_eq_true] at halloc
    rw [halloc]
    simp

theorem generateSalt_state_congr (h1 h2 : Header) (hR : FreeTableAgree h1 h2)
    (r : Nat → Nat) : rma_generateSalt h1 r = rma_generateSalt h2 r := by
  have hcol := saltCollision_state_congr h1 h2 hR
  unfold rma_generateSalt
  generalize 10 = n
  induction n generalizing r with
  | zero => rfl
  | succ n ih =>
    simp only [rma_generateSaltAux, hcol]
    split
    · exact ih _
    · rfl

theorem findBlock_state_congr (h1 h2 : Header) (hR : FreeTableAgree h1 h2) :
    ∀ handle, rma_findBlockByHandle h1 handle = rma_findBlockByHandle h2 handle := by
  obtain ⟨hts, hus, hbs, hnb, hna, hnh, hbo, hho, hdo, hbm, hlen, hagree⟩ := hR
  rw [hnb, hbm] at hagree
  intro handle
  unfold rma_findBlockByHandle
  rw [hnb, hbm]
  apply find?_range_congr
  intro j hj
  by_cases halloc : rma_isBlockAllocated h2.bitmap j = true
  · rw [hagree j hj halloc]
  · rw [Bool.not_eq_true] at halloc
    rw [halloc]
    simp

theorem isValidHandle_state_congr (h1 h2 : Header) (hR : FreeTableAgree h1 h2) :
    ∀ handle, rma_isValidHandle (some h1) handle = rma_isValidHandle (some h2) handle := by
  intro handle
  have hfb := findBlock_state_congr h1 h2 hR handle
  have hbm := hR.2.2.2.2.2.2.2.2.2.1
  unfold rma_isValidHandle
  dsimp only
  rw [hfb, hbm]

theorem isAlloc_of_mark_ne (bm : List Nat) (fi i : Nat) (hne : i ≠ fi)
    (h : rma_isBlockAllocated (rma_markBlockAllocated bm fi) i = true) :
    rma_isBlockAllocated bm i = true := by
  by_cases hlen : fi / 32 < bm.length
  · rw [isBlockAllocated_mark bm fi i hlen] at h
    have hb : (i == fi) = false := by simp [hne]
    rw [hb, Bool.false_or] at h
    exact h
  · unfold rma_markBlockAllocated at h
    rw [List.set_eq_of_length_le (by omega)] at h
    exact h

theorem isAlloc_of_markFree_ne (bm : List Nat) (fi i : Nat)
    (h : rma_isBlockAllocated (rma_markBlockFree bm fi) i = true) :
    rma_isBlockAllocated bm i = true := by
  by_cases hlen : fi / 32 < bm.length
  · rw [isBlockAllocated_markFree bm fi i hlen] at h
    simp only [Bool.and_eq_true] at h
    exact h.2
  · unfold rma_markBlockFree at h
    rw [List.set_eq_of_length_le (by omega)] at h
    exact h

theorem getD_set_same (l1 l2 : List Nat) (hlen : l1.length = l2.length) (idx v : Nat) :
    (l1.set idx v).getD idx 0 = (l2.set idx v).getD idx 0 := by
  by_cases hl : idx < l1.length
  · rw [getD_set_self _ _ _ hl, getD_set_self _ _ _ (by omega)]
  · rw [List.set_eq_of_length_le (by omega), List.set_eq_of_length_le (by omega)]
    rw [List.getD_eq_getElem?_getD, List.getD_eq_getElem?_getD,
      List.getElem?_eq_none (by omega), List.getElem?_eq_none (by omega)]

/-- C10: no operation depends on handle-table entries of free blocks.  For
any two pool states identical except in table entries of blocks whose
bitmap bit is clear, rma_alloc, rma_free, rma_getPtr and rma_isValidHandle
return identical results and successor states that again differ only in
free blocks' entries; moreover two inits differing only in the malloc
garbage behind the never-initialised handle table produce related pools,
which is why zeroing only the bitmap is harmless. -/
theorem c10_free_entries_noninterference :
    (∀ h1 h2 : Header, FreeTableAgree h1 h2 →
      (∀ r, (rma_allocCore h1 r).1 = (rma_allocCore h2 r).1 ∧
        FreeTableAgree (rma_allocCore h1 r).2 (rma_allocCore h2 r).2) ∧
      (∀ handle, (rma_freeCore h1 handle).1 = (rma_freeCore h2 handle).1 ∧
        FreeTableAgree (rma_freeCore h1 handle).2 (rma_freeCore h2 handle).2) ∧
      (∀ handle, rma_getPtr (some h1) handle = rma_getPtr (some h2) handle) ∧
      (∀ handle, rma_isValidHandle (some h1) handle =
        rma_isValidHandle (some h2) handle)) ∧
    (∀ (totalSize blockSize : Nat) (junk1 junk2 : List Nat) (g1 g2 : Header),
      junk1.length = junk2.length →
      rma_memHeaderInit totalSize blockSize true junk1 = some g1 →
      rma_memHeaderInit totalSize blockSize true junk2 = some g2 →
      FreeTableAgree g1 g2) := by
  constructor
  · intro h1 h2 hR
    have hRC : FreeTableAgree h1 h2 := hR
    obtain ⟨hts, hus, hbs, hnb, hna, hnh, hbo, hho, hdo, hbm, hlen, hagree⟩ := hR
    have hagree2 : ∀ i, i < h2.numBlocks → rma_isBlockAllocated h2.bitmap i = true →
        h1.handleTable.getD i 0 = h2.handleTable.getD i 0 := by
      rw [← hnb, ← hbm]
      exact hagree
    refine ⟨?_, ?_, ?_, ?_⟩
    · intro r
      have hsaltc := generateSalt_state_congr h1 h2 hRC r
      unfold rma_allocCore
      rw [hts, hus, hbs, hna, hnb, hnh, hbo, hho, hdo, hbm, hsaltc]
      by_cases hc1 : h2.numAllocated ≥ h2.numBlocks
      · rw [if_pos hc1, if_pos hc1]
        exact ⟨rfl, hRC⟩
      · rw [if_neg hc1, if_neg hc1]
        by_cases hc2 : (h2.nextHandle == 0) = true
        · rw [if_pos hc2, if_pos hc2]
          exact ⟨rfl, hRC⟩
        · rw [if_neg hc2, if_neg hc2]
          dsimp only
          by_cases hc3 : (rma_generateSalt h2 r == 0) = true
          · rw [if_pos hc3, if_pos hc3]
            exact ⟨rfl, hRC⟩
          · rw [if_neg hc3, if_neg hc3]
            refine ⟨rfl, rfl, rfl, rfl, rfl, rfl, rfl, rfl, rfl, rfl, rfl, ?_, ?_⟩
            · show (h1.handleTable.set _ _).length = (h2.handleTable.set _ _).length
              rw [List.length_set, List.length_set, hlen]
            · intro i hi halloci
              by_cases hif : i = ((List.range h2.numBlocks).find? (fun blockIndex =>
                  !rma_isBlockAllocated h2.bitmap blockIndex)).getD 0
              · rw [hif]
                exact getD_set_same _ _ hlen _ _
              · have hold : rma_isBlockAllocated h2.bitmap i = true :=
                  isAlloc_of_mark_ne h2.bitmap _ i hif halloci
                rw [getD_set_ne _ _ _ _ (fun hh => hif hh.symm),
                  getD_set_ne _ _ _ _ (fun hh => hif hh.symm)]
                exact hagree2 i hi hold
    · intro handle
      have hvc := isValidHandle_state_congr h1 h2 hRC handle
      have hfbc := findBlock_state_congr h1 h2 hRC handle
      unfold rma_freeCore
      dsimp only
      rw [hvc, hfbc, hts, hus, hbs, hna, hnb, hnh, hbo, hho, hdo, hbm]
      by_cases hv : rma_isValidHandle (some h2) handle ≤ 0
      · rw [if_pos hv, if_pos hv]
        exact ⟨rfl, hRC⟩
      · rw [if_neg hv, if_neg hv]
        cases hfb : rma_findBlockByHandle h2 handle with
        | none => exact ⟨rfl, hRC⟩
        | some idx =>
          refine ⟨rfl, rfl, rfl, rfl, rfl, rfl, rfl, rfl, rfl, rfl, rfl, ?_, ?_⟩
          · show (h1.handleTable.set idx 0).length = (h2.handleTable.set idx 0).length
            rw [List.length_set, List.length_set, hlen]
          · intro i hi halloci
            by_cases hif : i = idx
            · rw [hif]
              exact getD_set_same _ _ hlen idx 0
            · have hold : rma_isBlockAllocated h2.bitmap i = true :=
                isAlloc_of_markFree_ne h2.bitmap idx i halloci
              rw [getD_set_ne _ _ _ _ (fun hh => hif hh.symm),
                getD_set_ne _ _ _ _ (fun hh => hif hh.symm)]
              exact hagree2 i hi hold
    · intro handle
      have hvc := isValidHandle_state_congr h1 h2 hRC handle
      have hfbc := findBlock_state_congr h1 h2 hRC handle
      unfold rma_getPtr
      dsimp only
      rw [hvc, hfbc]
      by_cases hv : rma_isValidHandle (some h2) handle ≤ 0
      · rw [if_pos hv, if_pos hv]
      · rw [if_neg hv, if_neg hv]
        cases hfb : rma_findBlockByHandle h2 handle with
        | none => rfl
        | some idx =>
          unfold rma_getBlockPtr
          rw [hdo, hbs]
    · exact isValidHandle_state_congr h1 h2 hRC
  · intro totalSize blockSize junk1 junk2 g1 g2 hjlen heq1 heq2
    unfold rma_memHeaderInit at heq1 heq2
    rw [if_neg (by simp)] at heq1 heq2
    injection heq1 with heq1
    injection heq2 with heq2
    subst heq1
    subst heq2
    refine ⟨rfl, rfl, rfl, rfl, rfl, rfl, rfl, rfl, rfl, rfl, hjlen, ?_⟩
    intro i hi halloc
    rw [isBlockAllocated_replicate_zero] at halloc
    exact absurd halloc (by simp)

/-- C10 witness: the empty pool and the same pool with different garbage
in its free blocks' table entries are related, and allocation returns the
same handle on both and keeps them related; resolution agrees too. -/
theorem c10_free_entries_noninterference_witness :
    FreeTableAgree poolEmpty poolEmptyJunk ∧
    ((rma_allocCore poolEmpty (fun _ => 2)).1 =
      (rma_allocCore poolEmptyJunk (fun _ => 2)).1 ∧
      FreeTableAgree (rma_allocCore poolEmpty (fun _ => 2)).2
        (rma_allocCore poolEmptyJunk (fun _ => 2)).2) ∧
    rma_getPtr (some poolEmpty) 131073 = rma_getPtr (some poolEmptyJunk) 131073 := by
  have hmain := c10_free_entries_noninterference.1 poolEmpty poolEmptyJunk (by decide)
  exact ⟨by decide, hmain.1 (fun _ => 2), hmain.2.2.1 131073⟩
